import Mathlib

/-!
Verification development for the drakarn-crawling anime scrapers.
The Python sources (mal_scraper.py, animeplanet_scraper.py, anidb_scraper.py,
base_scraper.py, data_analyzer.py) are shallowly embedded below: strings are
modelled as Lean `String`/`List Char`, regular-expression fragments are
implemented as explicit character-list scanners with the same semantics, and
the stateful loops become structural recursions carrying their counters.
-/

/-- Whitespace characters as matched by the `\s` class used in the Python
regexes and by `str.strip()` (ASCII model). -/
def isSpaceChar (c : Char) : Bool :=
  c = ' ' || c = '\t' || c = '\n' || c = '\r' || c = '\x0b' || c = '\x0c'

/-- Word characters as matched by the `\w` class (ASCII model):
letters, digits and underscore. -/
def isWordChar (c : Char) : Bool :=
  c.isAlphanum || c = '_'

/-- ASCII lower-casing of one character, modelling `str.lower()`. -/
def lowerChar (c : Char) : Char :=
  if 65 ≤ c.toNat ∧ c.toNat ≤ 90 then Char.ofNat (c.toNat + 32) else c

/-- Remove leading characters satisfying `p`, as in `str.lstrip`. -/
def stripLeftBy (p : Char → Bool) (l : List Char) : List Char :=
  l.dropWhile p

/-- Remove trailing characters satisfying `p`. -/
def stripRightBy (p : Char → Bool) (l : List Char) : List Char :=
  (l.reverse.dropWhile p).reverse

/-- Remove leading and trailing characters satisfying `p`, as in `str.strip`. -/
def stripBy (p : Char → Bool) (l : List Char) : List Char :=
  stripRightBy p (stripLeftBy p l)

/-- `str.strip()` on whitespace. -/
def pyStrip (l : List Char) : List Char :=
  stripBy isSpaceChar l

/-- `str.strip()` lifted to `String`. -/
def pyStripS (s : String) : String :=
  String.mk (pyStrip s.data)

/-- Replace every maximal run of characters satisfying `p` by the single
character `rep`; the boolean records whether the previous character was in a
run.  `collapseRuns p rep false` models `re.sub(p+, rep, s)`. -/
def collapseRuns (p : Char → Bool) (rep : Char) : Bool → List Char → List Char
  | _, [] => []
  | inRun, c :: cs =>
    if p c then
      if inRun then collapseRuns p rep true cs
      else rep :: collapseRuns p rep true cs
    else c :: collapseRuns p rep false cs

/-- `re.sub(r'\s+', ' ', s)`. -/
def collapseWs (l : List Char) : List Char :=
  collapseRuns isSpaceChar ' ' false l

/-- `re.sub(r'[^\w\s]', '', s)`: keep only word characters and whitespace. -/
def keepWordAndSpace (l : List Char) : List Char :=
  l.filter (fun c => isWordChar c || isSpaceChar c)

/-- The transformation pipeline of `AnimeDataAnalyzer.normalize_title` on the
non-trivial branch: `title.strip().lower()`, then collapse whitespace, then
drop special characters, then a final `strip()`. -/
def normalizeCore (l : List Char) : List Char :=
  pyStrip (keepWordAndSpace (collapseWs ((pyStrip l).map lowerChar)))

/-- `AnimeDataAnalyzer.normalize_title` (data_analyzer.py, lines 317-326). -/
def normalizeTitle (t : String) : String :=
  if t = "" ∨ t = "N/A" then ""
  else String.mk (normalizeCore t.data)

/-- Numeric value of a list of decimal digit characters, most significant
first, as produced by `int`/`float` parsing of the digit run. -/
def digitsToNat (l : List Char) : Nat :=
  l.foldl (fun n c => 10 * n + (c.toNat - 48)) 0

/-- Rational value of `float("<ds>.<fs>")` for digit runs `ds` and `fs`. -/
def decimalValue (ds fs : List Char) : ℚ :=
  (digitsToNat ds : ℚ) + (digitsToNat fs : ℚ) / (10 : ℚ) ^ fs.length

/-- `re.search(r'(\d+\.?\d*)', s)` followed by `float` on the matched group:
scan for the first digit, take the maximal digit run, an optional dot and the
following digit run. Returns `none` when the string has no digit. -/
def findNumber : List Char → Option ℚ
  | [] => none
  | c :: cs =>
    if c.isDigit then
      let ds := (c :: cs).takeWhile Char.isDigit
      let rest := (c :: cs).dropWhile Char.isDigit
      let fs := match rest with
        | '.' :: r2 => r2.takeWhile Char.isDigit
        | _ => []
      some (decimalValue ds fs)
    else findNumber cs

/-- `MALScraper._parse_score` / `AnimePlanetScraper._parse_score`
(mal_scraper.py lines 361-374, animeplanet_scraper.py lines 191-204):
`"N/A"` and the empty string short-circuit to `0.0`; otherwise the first
decimal-looking substring is converted, defaulting to `0.0`. -/
def parseScore (s : String) : ℚ :=
  if s = "N/A" ∨ s = "" then 0
  else (findNumber s.data).getD 0

/-- The shared record shape produced by every extractor (all fields are
strings in the Python dicts). -/
structure AnimeRecord where
  rank : String
  title : String
  score : String
  url : String
  additionalInfo : String
  source : String
  category : String
deriving DecidableEq

/-- One comparison step of the duplicate-removal loop: the stored record is
replaced only when the incoming record has a strictly greater parsed score
(mal_scraper.py lines 323-328). -/
def considerRecord (best r : AnimeRecord) : AnimeRecord :=
  if parseScore best.score < parseScore r.score then r else best

/-- The grouping key used by the duplicate-removal loop: the record's raw
`title` string (`title = anime['title']`, mal_scraper.py line 320 and
animeplanet_scraper.py line 169). -/
def dedupTitleKey (r : AnimeRecord) : String :=
  r.title

/-- Process one pooled record against the ordered map of survivors: insert it
when its title is new, otherwise keep the better-scored of the two in place
(the Python dict keeps the position of the first insertion). -/
def mergeStep (m : List AnimeRecord) (r : AnimeRecord) : List AnimeRecord :=
  if m.any (fun x => decide (dedupTitleKey x = dedupTitleKey r)) then
    m.map (fun x => if dedupTitleKey x = dedupTitleKey r then considerRecord x r else x)
  else m ++ [r]

/-- The duplicate-removal pass of `scrape_category` (mal_scraper.py lines
317-331, animeplanet_scraper.py lines 166-180): fold the pooled records into
an insertion-ordered map keyed by raw title and return its values. -/
def mergeRecords (rs : List AnimeRecord) : List AnimeRecord :=
  rs.foldl mergeStep []

/-- The representative a single title group keeps: the fold of
`considerRecord` over the group, i.e. the first record attaining the group's
maximal parsed score. -/
def bestOf : List AnimeRecord → Option AnimeRecord
  | [] => none
  | r :: rs => some (rs.foldl considerRecord r)

/-- Stable insertion for a descending sort by `key`: the new element `a`
(earlier in the original list) is placed before the first element whose key
is not strictly greater. -/
def insDesc (key : α → ℚ) (a : α) : List α → List α
  | [] => [a]
  | x :: xs => if key a < key x then x :: insDesc key a xs else a :: x :: xs

/-- Stable descending sort by `key`, extensionally the behaviour of Python's
stable `list.sort(key=..., reverse=True)`. -/
def sortDescBy (key : α → ℚ) : List α → List α
  | [] => []
  | a :: l => insDesc key a (sortDescBy key l)

/-- `final_anime.sort(key=lambda x: self._parse_score(x['score']), reverse=True)`. -/
def sortRecords (l : List AnimeRecord) : List AnimeRecord :=
  sortDescBy (fun r => parseScore r.score) l

/-- The re-ranking loop of `scrape_category`: each surviving record receives
the category display label and the 1-based position as its rank
(mal_scraper.py lines 334-337). -/
def assignRanks (cat : String) : Nat → List AnimeRecord → List AnimeRecord
  | _, [] => []
  | i, r :: rs =>
    { r with category := cat, rank := toString (i + 1) } :: assignRanks cat (i + 1) rs

/-- The post-pooling pipeline of `scrape_category`: remove duplicates, sort
descending by parsed score, truncate to the limit, re-rank. -/
def categoryPipeline (catName : String) (limit : Nat) (pooled : List AnimeRecord) :
    List AnimeRecord :=
  assignRanks catName 0 ((sortRecords (mergeRecords pooled)).take limit)

/-- A configured category: display name, the per-site query values (genre ids
for MAL, tag slugs for AnimePlanet), and a description. -/
structure CatInfo (Q : Type) where
  name : String
  queries : List Q
  description : String
deriving DecidableEq

/-- `scrape_category` (mal_scraper.py lines 301-340, animeplanet_scraper.py
lines 150-189), with the per-query fetch-and-extract step abstracted as
`env` (it performs network and HTML work and returns `[]` on failure). An
unknown key returns the empty list. -/
def scrapeCategory (env : Q → List AnimeRecord) (cats : List (String × CatInfo Q))
    (key : String) (limit : Nat) : List AnimeRecord :=
  match cats.lookup key with
  | none => []
  | some cat => categoryPipeline cat.name limit (cat.queries.map env).flatten

/-- `scrape_all_categories` (mal_scraper.py lines 376-381, animeplanet_scraper.py
lines 311-320): every configured key is scraped and bound in the output. -/
def scrapeAllCategories (env : Q → List AnimeRecord) (cats : List (String × CatInfo Q))
    (limit : Nat) : List (String × List AnimeRecord) :=
  cats.map (fun p => (p.1, scrapeCategory env cats p.1 limit))

/-- The genre-based category table of `MALScraper.__init__`. -/
def malCategories : List (String × CatInfo Nat) :=
  [("action_adventure_shounen",
      ⟨"Action, Adventure, Shounen", [1, 2, 27], "Action, adventure, shounen anime"⟩),
   ("romance", ⟨"Romance", [22], "Romance anime"⟩),
   ("ecchi_erotica", ⟨"Ecchi, Erotica", [9], "Ecchi anime"⟩),
   ("slice_of_life", ⟨"Slice of Life", [36], "Slice of life anime"⟩),
   ("comedy", ⟨"Comedy", [4], "Comedy anime"⟩)]

/-- The tag-based category table of `AnimePlanetScraper.__init__`. -/
def apCategories : List (String × CatInfo String) :=
  [("action_adventure_shounen",
      ⟨"Action, Adventure, Shounen", ["action", "adventure", "shounen"],
       "Action, adventure, shounen anime"⟩),
   ("romance", ⟨"Romance", ["romance"], "Romance anime"⟩),
   ("ecchi", ⟨"Ecchi", ["ecchi"], "Ecchi anime"⟩),
   ("slice_of_life", ⟨"Slice of Life", ["slice-of-life"], "Slice of life anime"⟩),
   ("comedy", ⟨"Comedy", ["comedy"], "Comedy anime"⟩)]

/-- Does `pat` occur at the head of the list? -/
def leadsWith : List Char → List Char → Bool
  | [], _ => true
  | _ :: _, [] => false
  | p :: ps, c :: cs => p = c && leadsWith ps cs

/-- Worker for `removePat`, structurally recursive on a fuel bounded below by
the list length (every step consumes at least one character). -/
def removePatFuel (pat : List Char) : Nat → List Char → List Char
  | 0, l => l
  | _, [] => []
  | fuel + 1, c :: cs =>
    if !pat.isEmpty && leadsWith pat (c :: cs) then
      removePatFuel pat fuel (cs.drop (pat.length - 1))
    else c :: removePatFuel pat fuel cs

/-- `s.replace(pat, '')`: delete every (left-to-right, non-overlapping)
occurrence of `pat`. -/
def removePat (pat : List Char) (l : List Char) : List Char :=
  removePatFuel pat l.length l

/-- `str.lower()` on a whole string. -/
def lowerString (s : String) : String :=
  String.mk (s.data.map lowerChar)

/-- `s.startswith('http')`. -/
def startsWithHttp (s : String) : Bool :=
  leadsWith "http".data s.data

/-- `BaseScraper._get_cache_filename` (base_scraper.py lines 31-43): strip the
base URL, replace non-alphanumerics by underscores, collapse underscore runs,
trim underscores, default to "main", and join under `html_cache`. -/
def getCacheFilename (siteName baseUrl url : String) : String :=
  let urlPart := stripLeftBy (fun c => c = '/') (removePat baseUrl.data url.data)
  let clean := stripBy (fun c => c = '_')
    (collapseRuns (fun c => c = '_') '_' false
      (urlPart.map (fun c => if c.isAlphanum then c else '_')))
  let clean := if clean = [] then "main".data else clean
  "html_cache/" ++ lowerString siteName ++ "_" ++ String.mk clean ++ ".html"

/-- `AniDBScraper._get_cache_filename` (anidb_scraper.py lines 61-73): same
sanitisation against the AniDB base URL with the fixed `anidb_` file stem. -/
def anidbCacheFilename (url : String) : String :=
  let urlPart := stripLeftBy (fun c => c = '/') (removePat "https://anidb.net".data url.data)
  let clean := stripBy (fun c => c = '_')
    (collapseRuns (fun c => c = '_') '_' false
      (urlPart.map (fun c => if c.isAlphanum then c else '_')))
  let clean := if clean = [] then "main".data else clean
  "html_cache/" ++ "anidb_" ++ String.mk clean ++ ".html"

/-- The observable outcome of one HTTP attempt inside
`AnimePlanetScraper._make_request`: a response with a status code and body,
or a transport-level exception. -/
inductive FetchOutcome where
  | resp (code : Nat) (body : String)
  | exn
deriving DecidableEq

/-- The retry loop of `AnimePlanetScraper._make_request` (animeplanet_scraper.py
lines 81-103), as a function of the attempt outcomes.  Returns the document
(if any) together with the list of sleeps performed inside the loop, in
seconds.  `fuel` is the number of loop iterations left (`range(3)` starts it
at 3), `attempt` the current index. -/
def apLoop (o : Nat → FetchOutcome) : Nat → Nat → Option String × List Nat
  | 0, _ => (none, [])
  | fuel + 1, attempt =>
    match o attempt with
    | .resp 200 body => (some body, [])
    | .resp 403 _ =>
      if attempt = 2 then (none, [5 * (attempt + 1)])
      else
        let r := apLoop o fuel (attempt + 1)
        (r.1, 5 * (attempt + 1) :: r.2)
    | .resp _ _ =>
      if attempt = 2 then (none, [])
      else
        let r := apLoop o fuel (attempt + 1)
        (r.1, 5 :: r.2)
    | .exn =>
      if attempt = 2 then (none, [])
      else
        let r := apLoop o fuel (attempt + 1)
        (r.1, 5 :: r.2)

/-- `AnimePlanetScraper._make_request` without the initial 2-second courtesy
delay: up to three attempts starting at index 0. -/
def apMakeRequest (o : Nat → FetchOutcome) : Option String × List Nat :=
  apLoop o 3 0

/-- `re.match(r'^\d+\.\d+$', s)`: the whole string is digits, a dot, digits. -/
def isDecimalLiteral (l : List Char) : Bool :=
  let ds := l.takeWhile Char.isDigit
  match l.dropWhile Char.isDigit with
  | '.' :: rest => !ds.isEmpty && !rest.isEmpty && rest.all Char.isDigit
  | _ => false

/-- One `<tr>` of a MAL `anime.php` search page, reduced to the pieces the
parser reads: the title link (text and `href`) when the selector
`a.hoverinfo_trigger fw-b fl-l` matches, and the raw text of each `<td>`. -/
structure MalRow where
  titleLink : Option (String × String)
  cells : List String
deriving DecidableEq

def malBaseUrl : String := "https://myanimelist.net"

/-- Resolve a possibly-relative `href` against a base URL, as in
`if url and not url.startswith('http'): url = self.base_url + url`. -/
def resolveUrl (base href : String) : String :=
  if href != "" && !startsWithHttp href then base ++ href else href

/-- Score and additional-info extraction from the row's cells
(mal_scraper.py lines 113-133): both default to `"N/A"`; with at least five
cells, type and episode count feed the info text and the fifth cell becomes
the score when it is exactly a decimal literal. -/
def malRowExtras (cells : List String) : String × String :=
  if 5 ≤ cells.length then
    let typeText := pyStripS (cells.getD 2 "")
    let epText := pyStripS (cells.getD 3 "")
    let scoreText := pyStripS (cells.getD 4 "")
    let addInfo :=
      if typeText != "" && epText != "" then typeText ++ ", " ++ epText ++ " episodes"
      else if typeText != "" then typeText
      else "N/A"
    let score := if isDecimalLiteral scoreText.data then scoreText else "N/A"
    (score, addInfo)
  else ("N/A", "N/A")

/-- The title the MAL row parser would use, when extractable. -/
def malRowTitle (row : MalRow) : Option String :=
  row.titleLink.map (fun p => pyStripS p.1)

/-- The row loop of `MALScraper._parse_anime_search_list` (mal_scraper.py
lines 87-156): rows without the title link are skipped, rows whose stripped
title is empty or `"N/A"` are skipped, and `count` advances only when a
record is appended. -/
def malParseRows (catName : String) (limit : Nat) : List MalRow → Nat → List AnimeRecord
  | [], _ => []
  | row :: rows, count =>
    if limit ≤ count then []
    else
      match row.titleLink with
      | none => malParseRows catName limit rows count
      | some (text, href) =>
        let title := pyStripS text
        let url := resolveUrl malBaseUrl href
        let extras := malRowExtras row.cells
        if title = "" ∨ title = "N/A" then malParseRows catName limit rows count
        else
          { rank := toString (count + 1), title := title, score := extras.1, url := url,
            additionalInfo := extras.2, source := "MyAnimeList", category := catName }
            :: malParseRows catName limit rows (count + 1)

/-- `MALScraper._parse_anime_search_list` over the `<tr>` rows of a page. -/
def malParseAnimeSearchList (rows : List MalRow) (catName : String) (limit : Nat) :
    List AnimeRecord :=
  malParseRows catName limit rows 0

def apBaseUrl : String := "https://www.anime-planet.com"

/-- One AnimePlanet card (`li.card`), reduced to the selector and
tooltip-pattern results `_extract_anime_data` and `_extract_score` read.
The three `tooltip…` fields hold the captured groups of the corresponding
regular-expression searches over the link's `title` attribute (all `none`
when the link or the tooltip is absent). -/
structure ApCard where
  mainLink : Option String
  cardName : Option String
  ratingElem : Option String
  tooltipTtRating : Option String
  tooltipRatingColon : Option String
  tooltipRatingSlash : Option String
  dataRating : Option String
  entryBarItems : List String
  tooltipType : Option String
  tooltipYear : Option String
deriving DecidableEq

/-- `AnimePlanetScraper._extract_score` (animeplanet_scraper.py lines
275-309): rating element first, then the tooltip patterns in order, then the
data attributes, defaulting to `"N/A"`. -/
def apExtractScore (card : ApCard) : String :=
  match card.ratingElem with
  | some t => t
  | none =>
    let fromTooltip : Option String :=
      match card.mainLink with
      | none => none
      | some _ =>
        match card.tooltipTtRating with
        | some g => some (pyStripS g)
        | none =>
          match card.tooltipRatingColon with
          | some g => some g
          | none => card.tooltipRatingSlash
    match fromTooltip with
    | some s => s
    | none =>
      match card.dataRating with
      | some d => d
      | none => "N/A"

/-- The additional-info extraction of `_extract_anime_data` (animeplanet_scraper.py
lines 239-259): join of the first three entry-bar items, falling back to the
tooltip type/year groups when that text is empty. -/
def apAdditionalInfo (card : ApCard) : String :=
  let fromBar :=
    if card.entryBarItems ≠ [] then String.intercalate " | " (card.entryBarItems.take 3)
    else ""
  if fromBar ≠ "" then fromBar
  else
    match card.mainLink with
    | none => ""
    | some _ =>
      let parts :=
        (match card.tooltipType with | some t => [t] | none => []) ++
        (match card.tooltipYear with | some y => [y] | none => [])
      String.intercalate " | " parts

/-- `AnimePlanetScraper._extract_anime_data` (animeplanet_scraper.py lines
218-273): the record is always produced; title and URL default to `"N/A"`
when the main link or the card-name element is missing. -/
def apExtractAnimeData (card : ApCard) (rank : Nat) (tag : String) : Option AnimeRecord :=
  let tu : String × String :=
    match card.mainLink with
    | none => ("N/A", "N/A")
    | some href =>
      match card.cardName with
      | some t => (t, apBaseUrl ++ href)
      | none => ("N/A", apBaseUrl ++ href)
  some { rank := toString rank, title := tu.1, score := apExtractScore card, url := tu.2,
         additionalInfo := apAdditionalInfo card, source := "AnimePlanet", category := tag }

/-- The card loop of `AnimePlanetScraper._scrape_single_tag` (animeplanet_scraper.py
lines 135-141): ranks come from the enumeration index and a card is appended
whenever extraction yields data. -/
def apExtractLoop (tag : String) : List ApCard → Nat → List AnimeRecord
  | [], _ => []
  | c :: cs, i =>
    match apExtractAnimeData c (i + 1) tag with
    | some r => r :: apExtractLoop tag cs (i + 1)
    | none => apExtractLoop tag cs (i + 1)

/-- The per-tag extraction over the first `limit` cards. -/
def apExtractList (cards : List ApCard) (limit : Nat) (tag : String) : List AnimeRecord :=
  apExtractLoop tag (cards.take limit) 0

/-- `re.match(r'\d+\.\d+', s)`: the string starts with digits, a dot and at
least one digit (anchored at the start only). -/
def startsDecimal (l : List Char) : Bool :=
  let ds := l.takeWhile Char.isDigit
  match l.dropWhile Char.isDigit with
  | '.' :: d :: _ => !ds.isEmpty && d.isDigit
  | _ => false

/-- `re.search(r'(\d+\.\d+)', s)`: the first digit run that is followed by a
dot and a digit, together with the fractional run (backtracking inside a
digit run cannot create a match, so failed runs are skipped whole). -/
def searchDecimalStrict : List Char → Option (List Char)
  | [] => none
  | c :: cs =>
    if c.isDigit then
      let ds := (c :: cs).takeWhile Char.isDigit
      match (c :: cs).dropWhile Char.isDigit with
      | '.' :: d :: r =>
        if d.isDigit then some (ds ++ '.' :: (d :: r).takeWhile Char.isDigit)
        else searchDecimalStrict cs
      | _ => searchDecimalStrict cs
    else searchDecimalStrict cs

/-- One `<td>` of an AniDB listing row: its stripped text and the first
`<a>` (stripped text and `href`) when present. -/
structure AnidbCell where
  text : String
  link : Option (String × String)
deriving DecidableEq

/-- One `<tr>` of the AniDB `animelist` table. -/
structure AnidbRow where
  cells : List AnidbCell
deriving DecidableEq

def anidbBaseUrl : String := "https://anidb.net"

/-- The rating-cell search of `AniDBScraper._parse_anime_list` (anidb_scraper.py
lines 173-178): the first cell whose text starts with a decimal. -/
def anidbFindRatingCell : List AnidbCell → Option AnidbCell
  | [] => none
  | c :: cs => if startsDecimal c.text.data then some c else anidbFindRatingCell cs

/-- The row loop of `AniDBScraper._parse_anime_list` (anidb_scraper.py lines
159-219): rows with fewer than three cells are skipped (the enumeration index
still advances), the title comes from the first cell's link or, failing that,
its bare text, and a record is appended regardless of the title's content. -/
def anidbParseLoop (catName : String) : List AnidbRow → Nat → List AnimeRecord
  | [], _ => []
  | row :: rows, i =>
    if row.cells.length < 3 then anidbParseLoop catName rows (i + 1)
    else
      let titleCell := row.cells.getD 0 ⟨"", none⟩
      let tu : String × String :=
        match titleCell.link with
        | some (t, href) => (t, resolveUrl anidbBaseUrl href)
        | none => (titleCell.text, "N/A")
      let rating :=
        match anidbFindRatingCell row.cells with
        | some cell =>
          match searchDecimalStrict cell.text.data with
          | some m => String.mk m
          | none => "N/A"
        | none => "N/A"
      let addInfo :=
        if 1 < row.cells.length then
          String.intercalate " | " (((row.cells.drop 1).take 2).map (fun c => c.text))
        else "N/A"
      { rank := toString (i + 1), title := tu.1, score := rating, url := tu.2,
        additionalInfo := addInfo, source := "AniDB", category := catName }
        :: anidbParseLoop catName rows (i + 1)

/-- `AniDBScraper._parse_anime_list`: nothing without the `animelist` table,
otherwise the row loop over the header-stripped rows up to `limit`. -/
def anidbParseAnimeList (table : Option (List AnidbRow)) (catName : String) (limit : Nat) :
    List AnimeRecord :=
  match table with
  | none => []
  | some rows => anidbParseLoop catName ((rows.drop 1).take limit) 0

/-- Dropping a while-run never lengthens a list. -/
theorem dropWhile_length_le (p : α → Bool) (l : List α) :
    (l.dropWhile p).length ≤ l.length := by
  induction l with
  | nil => simp
  | cons c cs ih =>
    by_cases h : p c
    · simp only [List.dropWhile_cons, h, if_true]
      exact ih.trans (Nat.le_succ _)
    · simp [List.dropWhile_cons, h]

/-- Worker for `wordRuns`, structurally recursive on a fuel bounded below by
the list length. -/
def wordRunsFuel : Nat → List Char → List (List Char)
  | 0, _ => []
  | _, [] => []
  | fuel + 1, c :: cs =>
    if isWordChar c then
      (c :: cs.takeWhile isWordChar) :: wordRunsFuel fuel (cs.dropWhile isWordChar)
    else wordRunsFuel fuel cs

/-- Maximal runs of word characters, i.e. `re.findall(r'\b\w+\b', s)`. -/
def wordRuns (l : List Char) : List (List Char) :=
  wordRunsFuel l.length l

/-- The tokenisation of one title used by `title_analysis`
(data_analyzer.py line 304): `re.findall(r'\b\w+\b', title.lower())`. -/
def tokenizeTitle (t : String) : List String :=
  (wordRuns (t.data.map lowerChar)).map String.mk

/-- One `Counter.update` step for a single word: increment in place or insert
at the end (Python dicts keep insertion order). -/
def bumpWord (m : List (String × Nat)) (w : String) : List (String × Nat) :=
  if m.any (fun p => decide (p.1 = w)) then
    m.map (fun p => if p.1 = w then (p.1, p.2 + 1) else p)
  else m ++ [(w, 1)]

/-- The word counter built from the token stream. -/
def countWords (ws : List String) : List (String × Nat) :=
  ws.foldl bumpWord []

/-- `Counter.most_common(n)`: stable descending sort by count, then the first
`n` entries. -/
def mostCommon (n : Nat) (m : List (String × Nat)) : List (String × Nat) :=
  (sortDescBy (fun p => (p.2 : ℚ)) m).take n

/-- The title collection of `AnimeDataAnalyzer.title_analysis`
(data_analyzer.py lines 278-284): every record's stripped title across all
sources and categories, keeping non-empty titles other than `"N/A"`. -/
def collectTitles (data : List (String × List (String × List AnimeRecord))) : List String :=
  ((data.flatMap (fun sc => sc.2.flatMap (fun cl => cl.2.map (fun r => r.title)))).map
      pyStripS).filter (fun t => t != "" && t != "N/A")

/-- The `common_words` entry stored in the analysis report (data_analyzer.py
line 314): the raw `most_common(50)` of the word counter, present only when
some title was collected. -/
def commonWordsReport (data : List (String × List (String × List AnimeRecord))) :
    Option (List (String × Nat)) :=
  let titles := collectTitles data
  if titles = [] then none
  else some (mostCommon 50 (countWords (titles.flatMap tokenizeTitle)))

/-- The words actually printed to the console by `title_analysis`
(data_analyzer.py lines 308-310): the `most_common(20)` entries whose word is
longer than two characters. -/
def printedTitleWords (data : List (String × List (String × List AnimeRecord))) :
    List String :=
  let titles := collectTitles data
  if titles = [] then []
  else
    ((mostCommon 20 (countWords (titles.flatMap tokenizeTitle))).filter
        (fun p => 2 < p.1.length)).map (fun p => p.1)

theorem head_dropWhile_not (p : Char → Bool) (l : List Char) :
    ∀ c, (l.dropWhile p).head? = some c → p c = false := by
  induction l with
  | nil => intro c h; simp at h
  | cons a as ih =>
    intro c h
    by_cases hp : p a
    · rw [List.dropWhile_cons, if_pos hp] at h
      exact ih c h
    · rw [List.dropWhile_cons, if_neg hp] at h
      simp only [List.head?_cons, Option.some.injEq] at h
      subst h
      exact Bool.eq_false_iff.mpr hp

theorem dropWhile_eq_self (p : Char → Bool) (l : List Char)
    (h : ∀ c, l.head? = some c → p c = false) : l.dropWhile p = l := by
  cases l with
  | nil => rfl
  | cons a as =>
    rw [List.dropWhile_cons, if_neg]
    simp [h a rfl]

theorem exists_dropWhile_eq_drop (p : Char → Bool) (l : List Char) :
    ∃ n, l.dropWhile p = l.drop n := by
  induction l with
  | nil => exact ⟨0, rfl⟩
  | cons a as ih =>
    by_cases hp : p a
    · obtain ⟨n, hn⟩ := ih
      exact ⟨n + 1, by rw [List.dropWhile_cons, if_pos hp, List.drop_succ_cons, hn]⟩
    · exact ⟨0, by rw [List.dropWhile_cons, if_neg hp, List.drop_zero]⟩

theorem head?_take_eq (l : List Char) (k : Nat) (c : Char)
    (h : (l.take k).head? = some c) : l.head? = some c := by
  cases l with
  | nil => simp at h
  | cons a as =>
    cases k with
    | zero => simp at h
    | succ k => simpa using h

/-- The list has no `p`-character at its head. -/
def headNot (p : Char → Bool) (l : List Char) : Prop :=
  ∀ c, l.head? = some c → p c = false

/-- The list has no `p`-character at its end. -/
def lastNot (p : Char → Bool) (l : List Char) : Prop :=
  ∀ c, l.getLast? = some c → p c = false

theorem stripRightBy_eq_take (p : Char → Bool) (l : List Char) :
    ∃ k, stripRightBy p l = l.take k := by
  obtain ⟨n, hn⟩ := exists_dropWhile_eq_drop p l.reverse
  refine ⟨l.length - n, ?_⟩
  rw [stripRightBy, hn, ← List.rdrop_eq_reverse_drop_reverse, List.rdrop]

theorem headNot_stripRightBy (p : Char → Bool) (l : List Char) (h : headNot p l) :
    headNot p (stripRightBy p l) := by
  obtain ⟨k, hk⟩ := stripRightBy_eq_take p l
  intro c hc
  rw [hk] at hc
  exact h c (head?_take_eq l k c hc)

theorem lastNot_stripRightBy (p : Char → Bool) (l : List Char) :
    lastNot p (stripRightBy p l) := by
  intro c hc
  rw [stripRightBy, List.getLast?_reverse] at hc
  exact head_dropWhile_not p l.reverse c hc

theorem headNot_stripBy (p : Char → Bool) (l : List Char) : headNot p (stripBy p l) :=
  headNot_stripRightBy p _ (head_dropWhile_not p l)

theorem lastNot_stripBy (p : Char → Bool) (l : List Char) : lastNot p (stripBy p l) :=
  lastNot_stripRightBy p _

theorem stripBy_eq_self (p : Char → Bool) (l : List Char)
    (hh : headNot p l) (hl : lastNot p l) : stripBy p l = l := by
  rw [stripBy, stripLeftBy, dropWhile_eq_self p l hh, stripRightBy,
    dropWhile_eq_self p l.reverse (fun c hc => hl c (by rwa [List.head?_reverse] at hc)),
    List.reverse_reverse]

theorem stripBy_subset (p : Char → Bool) (l : List Char) : stripBy p l ⊆ l := by
  intro c hc
  obtain ⟨k, hk⟩ := stripRightBy_eq_take p (stripLeftBy p l)
  rw [stripBy, hk] at hc
  obtain ⟨n, hn⟩ := exists_dropWhile_eq_drop p l
  have := List.take_subset k _ hc
  rw [stripLeftBy, hn] at this
  exact List.drop_subset n l this

theorem mem_collapseRuns (p : Char → Bool) (rep : Char) (l : List Char) :
    ∀ (b : Bool) (c : Char), c ∈ collapseRuns p rep b l → c = rep ∨ (c ∈ l ∧ p c = false) := by
  induction l with
  | nil => intro b c hc; simp [collapseRuns] at hc
  | cons a as ih =>
    intro b c hc
    by_cases hp : p a
    · cases b with
      | true =>
        rw [collapseRuns, if_pos hp, if_pos rfl] at hc
        rcases ih true c hc with h | ⟨h1, h2⟩
        · exact Or.inl h
        · exact Or.inr ⟨List.mem_cons_of_mem a h1, h2⟩
      | false =>
        rw [collapseRuns, if_pos hp, if_neg (by simp)] at hc
        rcases List.mem_cons.mp hc with h | h
        · exact Or.inl h
        · rcases ih true c h with h | ⟨h1, h2⟩
          · exact Or.inl h
          · exact Or.inr ⟨List.mem_cons_of_mem a h1, h2⟩
    · rw [collapseRuns, if_neg hp] at hc
      rcases List.mem_cons.mp hc with h | h
      · subst h
        exact Or.inr ⟨List.mem_cons_self _ _, Bool.eq_false_iff.mpr hp⟩
      · rcases ih false c h with h2 | ⟨h1, h2⟩
        · exact Or.inl h2
        · exact Or.inr ⟨List.mem_cons_of_mem a h1, h2⟩

theorem head_collapse_true (p : Char → Bool) (rep : Char) (l : List Char) :
    ∀ c, (collapseRuns p rep true l).head? = some c → p c = false := by
  induction l with
  | nil => intro c h; simp [collapseRuns] at h
  | cons a as ih =>
    intro c h
    by_cases hp : p a
    · rw [collapseRuns, if_pos hp, if_pos rfl] at h
      exact ih c h
    · rw [collapseRuns, if_neg hp] at h
      simp only [List.head?_cons, Option.some.injEq] at h
      subst h
      exact Bool.eq_false_iff.mpr hp

/-- No two adjacent characters of the list both satisfy `p`. -/
def noAdjBy (p : Char → Bool) : List Char → Prop
  | [] => True
  | [_] => True
  | a :: b :: t => ¬(p a = true ∧ p b = true) ∧ noAdjBy p (b :: t)

theorem noAdjBy_cons (p : Char → Bool) (c : Char) (l : List Char)
    (hhead : ∀ d, l.head? = some d → ¬(p c = true ∧ p d = true))
    (hl : noAdjBy p l) : noAdjBy p (c :: l) := by
  cases l with
  | nil => trivial
  | cons d t => exact ⟨hhead d rfl, hl⟩

theorem noAdjBy_tail (p : Char → Bool) (c : Char) (l : List Char)
    (h : noAdjBy p (c :: l)) : noAdjBy p l := by
  cases l with
  | nil => trivial
  | cons d t => exact h.2

theorem noAdjBy_head_pair (p : Char → Bool) (c : Char) (l : List Char)
    (h : noAdjBy p (c :: l)) : ∀ d, l.head? = some d → ¬(p c = true ∧ p d = true) := by
  cases l with
  | nil => intro d hd; simp at hd
  | cons e t =>
    intro d hd
    simp only [List.head?_cons, Option.some.injEq] at hd
    subst hd
    exact h.1

theorem noAdjBy_collapseRuns (p : Char → Bool) (rep : Char) (l : List Char) :
    ∀ b : Bool, noAdjBy p (collapseRuns p rep b l) := by
  induction l with
  | nil => intro b; rw [collapseRuns]; trivial
  | cons a as ih =>
    intro b
    by_cases hp : p a
    · cases b with
      | true =>
        rw [collapseRuns, if_pos hp, if_pos rfl]
        exact ih true
      | false =>
        rw [collapseRuns, if_pos hp, if_neg (by simp)]
        refine noAdjBy_cons p rep _ ?_ (ih true)
        intro d hd
        have := head_collapse_true p rep as d hd
        simp [this]
    · rw [collapseRuns, if_neg hp]
      refine noAdjBy_cons p a _ ?_ (ih false)
      intro d _
      simp [hp]

theorem noAdjBy_take (p : Char → Bool) :
    ∀ l : List Char, noAdjBy p l → ∀ n, noAdjBy p (l.take n) := by
  intro l
  induction l with
  | nil => intro _ n; simp [noAdjBy]
  | cons c cs ih =>
    intro h n
    cases n with
    | zero => trivial
    | succ n =>
      rw [List.take_succ_cons]
      refine noAdjBy_cons p c _ ?_ (ih (noAdjBy_tail p c cs h) n)
      intro d hd
      exact noAdjBy_head_pair p c cs h d (head?_take_eq cs n d hd)

theorem noAdjBy_drop (p : Char → Bool) :
    ∀ (n : Nat) (l : List Char), noAdjBy p l → noAdjBy p (l.drop n) := by
  intro n
  induction n with
  | zero => intro l h; simpa using h
  | succ n ih =>
    intro l h
    cases l with
    | nil => trivial
    | cons c cs =>
      rw [List.drop_succ_cons]
      exact ih cs (noAdjBy_tail p c cs h)

theorem noAdjBy_stripBy (p : Char → Bool) (l : List Char) (h : noAdjBy p l) :
    noAdjBy p (stripBy p l) := by
  obtain ⟨k, hk⟩ := stripRightBy_eq_take p (stripLeftBy p l)
  obtain ⟨n, hn⟩ := exists_dropWhile_eq_drop p l
  rw [stripBy, hk]
  refine noAdjBy_take p _ ?_ k
  rw [stripLeftBy, hn]
  exact noAdjBy_drop p n l h

attribute [irreducible] noAdjBy

theorem collapse_true_eq_false (p : Char → Bool) (rep : Char) (l : List Char)
    (hh : ∀ d, l.head? = some d → p d = false) :
    collapseRuns p rep true l = collapseRuns p rep false l := by
  cases l with
  | nil => rfl
  | cons d t =>
    have hd := hh d rfl
    simp [collapseRuns, hd]

theorem collapseRuns_eq_self (p : Char → Bool) (rep : Char) :
    ∀ l : List Char, noAdjBy p l → (∀ c ∈ l, p c = true → c = rep) →
      collapseRuns p rep false l = l := by
  intro l
  induction l with
  | nil => intro _ _; rfl
  | cons a as ih =>
    intro hna hrep
    by_cases hp : p a
    · have ha : a = rep := hrep a (List.mem_cons_self _ _) hp
      rw [collapseRuns, if_pos hp, if_neg (by simp)]
      have hhead : ∀ d, as.head? = some d → p d = false := by
        intro d hd
        cases hpd : p d
        · rfl
        · exact absurd ⟨hp, hpd⟩ (noAdjBy_head_pair p a as hna d hd)
      rw [collapse_true_eq_false p rep as hhead,
        ih (noAdjBy_tail p a as hna) (fun c hc hcp => hrep c (List.mem_cons_of_mem a hc) hcp), ha]
    · rw [collapseRuns, if_neg hp,
        ih (noAdjBy_tail p a as hna) (fun c hc hcp => hrep c (List.mem_cons_of_mem a hc) hcp)]

theorem map_eq_self_of (f : Char → Char) (l : List Char) (h : ∀ c ∈ l, f c = c) :
    l.map f = l :=
  (List.map_congr_left h).trans l.map_id

theorem char_toNat_ofNat (n : Nat) (h : n < 55296) : (Char.ofNat n).toNat = n := by
  have hv : n.isValidChar := Or.inl h
  simp [Char.ofNat, hv, Char.ofNatAux, Char.toNat, UInt32.toNat, BitVec.toNat_ofNatLt]

theorem lowerChar_idem (c : Char) : lowerChar (lowerChar c) = lowerChar c := by
  unfold lowerChar
  split
  · next h =>
    have ht : (Char.ofNat (c.toNat + 32)).toNat = c.toNat + 32 :=
      char_toNat_ofNat _ (by omega)
    rw [if_neg (by omega)]
  · rfl

theorem normalizeCore_wordspace (l : List Char) :
    ∀ c ∈ normalizeCore l, (isWordChar c || isSpaceChar c) = true := by
  intro c hc
  rw [normalizeCore, pyStrip] at hc
  have h1 := stripBy_subset _ _ hc
  rw [keepWordAndSpace] at h1
  exact (List.mem_filter.mp h1).2

theorem normalizeCore_lower_fixed (l : List Char) :
    ∀ c ∈ normalizeCore l, lowerChar c = c := by
  intro c hc
  rw [normalizeCore, pyStrip] at hc
  have h1 := stripBy_subset _ _ hc
  rw [keepWordAndSpace] at h1
  have h2 := (List.mem_filter.mp h1).1
  rw [collapseWs] at h2
  rcases mem_collapseRuns _ _ _ _ _ h2 with h | ⟨h3, _⟩
  · subst h; rfl
  · rcases List.mem_map.mp h3 with ⟨d, _, hd⟩
    rw [← hd]
    exact lowerChar_idem d

theorem normalizeCore_space_blank (l : List Char) :
    ∀ c ∈ normalizeCore l, isSpaceChar c = true → c = ' ' := by
  intro c hc hsp
  rw [normalizeCore, pyStrip] at hc
  have h1 := stripBy_subset _ _ hc
  rw [keepWordAndSpace] at h1
  have h2 := (List.mem_filter.mp h1).1
  rw [collapseWs] at h2
  rcases mem_collapseRuns _ _ _ _ _ h2 with h | ⟨_, h4⟩
  · exact h
  · rw [hsp] at h4; cases h4

theorem normalizeCore_headNot (l : List Char) : headNot isSpaceChar (normalizeCore l) := by
  rw [normalizeCore, pyStrip]
  exact headNot_stripBy _ _

theorem normalizeCore_lastNot (l : List Char) : lastNot isSpaceChar (normalizeCore l) := by
  rw [normalizeCore, pyStrip]
  exact lastNot_stripBy _ _

theorem pyStrip_normalizeCore (l : List Char) : pyStrip (normalizeCore l) = normalizeCore l := by
  rw [pyStrip]
  exact stripBy_eq_self _ _ (normalizeCore_headNot l) (normalizeCore_lastNot l)

theorem normalizeCore_image_eq (l : List Char) :
    normalizeCore (normalizeCore l) = pyStrip (collapseWs (normalizeCore l)) := by
  have hstrip := pyStrip_normalizeCore l
  have hmap := map_eq_self_of lowerChar (normalizeCore l) (normalizeCore_lower_fixed l)
  have hkeep : keepWordAndSpace (collapseWs (normalizeCore l)) = collapseWs (normalizeCore l) := by
    rw [keepWordAndSpace]
    refine List.filter_eq_self.mpr ?_
    intro c hc
    rw [collapseWs] at hc
    rcases mem_collapseRuns _ _ _ _ _ hc with h | ⟨h1, _⟩
    · subst h; decide
    · exact normalizeCore_wordspace l c h1
  conv_lhs => rw [normalizeCore, hstrip, hmap, hkeep]

theorem noAdjBy_normalizeCore_twice (l : List Char) :
    noAdjBy isSpaceChar (normalizeCore (normalizeCore l)) := by
  rw [normalizeCore_image_eq, pyStrip]
  refine noAdjBy_stripBy _ _ ?_
  rw [collapseWs]
  exact noAdjBy_collapseRuns _ _ _ false

theorem collapseWs_eq_self (m : List Char) (hna : noAdjBy isSpaceChar m)
    (hbl : ∀ c ∈ m, isSpaceChar c = true → c = ' ') : collapseWs m = m := by
  rw [collapseWs]
  exact collapseRuns_eq_self _ _ m hna hbl

theorem normalizeCore_triple (l : List Char) :
    normalizeCore (normalizeCore (normalizeCore l)) = normalizeCore (normalizeCore l) := by
  have h3 := normalizeCore_image_eq (normalizeCore l)
  have h4 := collapseWs_eq_self (normalizeCore (normalizeCore l))
    (noAdjBy_normalizeCore_twice l) (normalizeCore_space_blank (normalizeCore l))
  have h5 := pyStrip_normalizeCore (normalizeCore l)
  rw [h3, h4, h5]

theorem normalizeTitle_eq0 (t : String) (h : t = "" ∨ t = "N/A") : normalizeTitle t = "" := by
  rw [normalizeTitle, if_pos h]

theorem normalizeTitle_eqNF (t : String) (h : ¬(t = "" ∨ t = "N/A")) :
    normalizeTitle t = String.mk (normalizeCore t.data) := by
  rw [normalizeTitle, if_neg h]

theorem normalizeCore_ne_NA (l : List Char) : String.mk (normalizeCore l) ≠ "N/A" := by
  intro h
  have hdata : normalizeCore l = "N/A".data := congrArg String.data h
  have hmem : '/' ∈ normalizeCore l := by rw [hdata]; decide
  exact absurd (normalizeCore_wordspace l '/' hmem) (by decide)

theorem normalizeTitle_mkCore (l : List Char) :
    normalizeTitle (String.mk (normalizeCore l)) = String.mk (normalizeCore (normalizeCore l)) := by
  by_cases h : String.mk (normalizeCore l) = ""
  · have hl : normalizeCore l = [] := congrArg String.data h
    rw [h, hl]
    rfl
  · have h' : ¬(String.mk (normalizeCore l) = "" ∨ String.mk (normalizeCore l) = "N/A") := by
      rintro (hh | hh)
      · exact h hh
      · exact normalizeCore_ne_NA l hh
    rw [normalizeTitle_eqNF _ h']

theorem normalizeTitle_triple (t : String) :
    normalizeTitle (normalizeTitle (normalizeTitle t)) = normalizeTitle (normalizeTitle t) := by
  by_cases h0 : t = "" ∨ t = "N/A"
  · rw [normalizeTitle_eq0 t h0]
    rfl
  · rw [normalizeTitle_eqNF t h0, normalizeTitle_mkCore, normalizeTitle_mkCore,
      normalizeCore_triple]

/-- C4 counterexample: `normalize_title` is not idempotent — on "a ! b" the
whitespace is collapsed before the "!" is removed, leaving a double space
that a second application collapses further. -/
theorem normalize_idempotence_counterexample :
    normalizeTitle (normalizeTitle "a ! b") ≠ normalizeTitle "a ! b" := by decide

/-- C4 (amended): while a single application of `normalize_title` is not
idempotent, applying it twice reaches a fixed point
(`normalize³ = normalize²` on every string), and normalization is case- and
punctuation-insensitive on the spec's example: "Attack on Titan!" and
"attack on titan" normalize equal. -/
theorem normalize_double_idempotent :
    (∀ x : String,
      normalizeTitle (normalizeTitle (normalizeTitle x)) = normalizeTitle (normalizeTitle x)) ∧
    normalizeTitle "Attack on Titan!" = normalizeTitle "attack on titan" :=
  ⟨normalizeTitle_triple, by decide⟩

/-- C3 counterexample: the dedup grouping key of "Attack on Titan!" is the
raw string itself, which differs from `normalize_title` of it; consequently
two records whose titles normalize identically are not merged. -/
theorem dedup_key_counterexample :
    dedupTitleKey
        { rank := "1", title := "Attack on Titan!", score := "9.1", url := "u1",
          additionalInfo := "N/A", source := "MyAnimeList", category := "Action" } ≠
      normalizeTitle "Attack on Titan!" ∧
    (mergeRecords
        [{ rank := "1", title := "Attack on Titan!", score := "9.1", url := "u1",
           additionalInfo := "N/A", source := "MyAnimeList", category := "Action" },
         { rank := "2", title := "attack on titan", score := "8.9", url := "u2",
           additionalInfo := "N/A", source := "MyAnimeList", category := "Action" }]).length = 2 ∧
    normalizeTitle "Attack on Titan!" = normalizeTitle "attack on titan" := by
  refine ⟨by decide, ?_, by decide⟩
  decide

/-- C3 (amended): the grouping key used by the Deduplicator is the record's
raw title string, not the Analyzer's normalization; the two coincide exactly
on titles that are fixed points of `normalize_title`. -/
theorem dedup_key_amended (r : AnimeRecord) :
    dedupTitleKey r = r.title ∧
      (dedupTitleKey r = normalizeTitle r.title ↔ normalizeTitle r.title = r.title) :=
  ⟨rfl, eq_comm⟩

theorem digitsToNat_nonneg (l : List Char) : (0 : ℚ) ≤ (digitsToNat l : ℚ) := by positivity

theorem decimalValue_nonneg (ds fs : List Char) : 0 ≤ decimalValue ds fs := by
  rw [decimalValue]
  positivity

theorem findNumber_nonneg (l : List Char) : ∀ q, findNumber l = some q → 0 ≤ q := by
  induction l with
  | nil => intro q h; simp [findNumber] at h
  | cons c cs ih =>
    intro q h
    rw [findNumber] at h
    by_cases hd : c.isDigit
    · rw [if_pos hd] at h
      simp only [Option.some.injEq] at h
      rw [← h]
      exact decimalValue_nonneg _ _
    · rw [if_neg hd] at h
      exact ih q h

theorem parseScore_nonneg (s : String) : 0 ≤ parseScore s := by
  rw [parseScore]
  split
  · exact le_refl 0
  · cases h : findNumber s.data with
    | none => simp
    | some q => simpa using findNumber_nonneg s.data q h

theorem parseScore_eq_zero_iff (s : String) :
    parseScore s = 0 ↔ findNumber s.data = none ∨ findNumber s.data = some 0 := by
  rw [parseScore]
  split
  · next h =>
    rcases h with h | h <;> subst h <;> simp [findNumber]
  · cases h : findNumber s.data with
    | none => simp
    | some q => simp

theorem findNumber_none_iff (l : List Char) :
    findNumber l = none ↔ ∀ c ∈ l, c.isDigit = false := by
  induction l with
  | nil => simp [findNumber]
  | cons c cs ih =>
    rw [findNumber]
    by_cases hd : c.isDigit
    · rw [if_pos hd]
      simp [hd]
    · rw [if_neg hd]
      rw [ih]
      constructor
      · intro h e he
        rcases List.mem_cons.mp he with rfl | he2
        · exact Bool.eq_false_iff.mpr hd
        · exact h e he2
      · intro h e he
        exact h e (List.mem_cons_of_mem c he)

/-- C10 counterexample: the input "0" contains a decimal-looking substring
yet parses to 0.0, so "returns 0.0 exactly when the input contains no
decimal-looking substring" fails in the only-if direction. -/
theorem parse_score_zero_counterexample :
    parseScore "0" = 0 ∧ findNumber "0".data ≠ none := by
  have h : findNumber "0".data = some 0 := by
    have h0 : findNumber "0".data = some (decimalValue ['0'] []) := rfl
    rw [h0]
    norm_num [decimalValue, digitsToNat, show Char.toNat '0' = 48 from rfl]
  exact ⟨(parseScore_eq_zero_iff "0").mpr (Or.inr h), by rw [h]; simp⟩

/-- C10 (amended): the score parser is total and non-negative on every
string, and it returns 0.0 exactly when the string contains no
decimal-looking substring (no digit at all) or the first decimal-looking
substring itself denotes zero. -/
theorem parse_score_amended :
    (∀ s : String, 0 ≤ parseScore s) ∧
    (∀ s : String, parseScore s = 0 ↔ findNumber s.data = none ∨ findNumber s.data = some 0) ∧
    (∀ s : String, findNumber s.data = none ↔ ∀ c ∈ s.data, c.isDigit = false) :=
  ⟨parseScore_nonneg, parseScore_eq_zero_iff, fun s => findNumber_none_iff s.data⟩

theorem filter_map_comm {α : Type} (f : α → α) (p : α → Bool) (l : List α)
    (h : ∀ x, p (f x) = p x) : (l.map f).filter p = (l.filter p).map f := by
  induction l with
  | nil => rfl
  | cons x xs ih =>
    simp only [List.map_cons, List.filter_cons, h x]
    cases hp : p x <;> simp [ih]

theorem map_eq_self_list {α : Type} (f : α → α) (l : List α) (h : ∀ x ∈ l, f x = x) :
    l.map f = l :=
  (List.map_congr_left h).trans l.map_id

theorem bestOf_none_iff (g : List AnimeRecord) : bestOf g = none ↔ g = [] := by
  cases g <;> simp [bestOf]

theorem considerRecord_cases (a r : AnimeRecord) :
    considerRecord a r = a ∨ considerRecord a r = r := by
  rw [considerRecord]; split
  · exact Or.inr rfl
  · exact Or.inl rfl

theorem considerRecord_title (a r : AnimeRecord) (h : a.title = r.title) :
    (considerRecord a r).title = a.title := by
  rcases considerRecord_cases a r with hc | hc <;> rw [hc, h]

theorem foldl_consider_mem (l : List AnimeRecord) :
    ∀ a : AnimeRecord, l.foldl considerRecord a ∈ a :: l := by
  induction l with
  | nil => intro a; simp
  | cons x xs ih =>
    intro a
    rw [List.foldl_cons]
    rcases considerRecord_cases a x with hc | hc <;> rw [hc]
    · rcases List.mem_cons.mp (ih a) with h | h
      · rw [h]; exact List.mem_cons_self _ _
      · exact List.mem_cons_of_mem _ (List.mem_cons_of_mem _ h)
    · rcases List.mem_cons.mp (ih x) with h | h
      · rw [h]; exact List.mem_cons_of_mem _ (List.mem_cons_self _ _)
      · exact List.mem_cons_of_mem _ (List.mem_cons_of_mem _ h)

theorem bestOf_mem (g : List AnimeRecord) (b : AnimeRecord) (h : bestOf g = some b) :
    b ∈ g := by
  cases g with
  | nil => simp [bestOf] at h
  | cons a as =>
    rw [bestOf] at h
    injection h with h
    exact h ▸ foldl_consider_mem as a

theorem mergeRecords_append (rs : List AnimeRecord) (r : AnimeRecord) :
    mergeRecords (rs ++ [r]) = mergeStep (mergeRecords rs) r := by
  rw [mergeRecords, mergeRecords, List.foldl_append]
  rfl

theorem bestOf_append_single (g : List AnimeRecord) (b r : AnimeRecord)
    (h : bestOf g = some b) : bestOf (g ++ [r]) = some (considerRecord b r) := by
  cases g with
  | nil => simp [bestOf] at h
  | cons a as =>
    rw [bestOf] at h
    injection h with h
    rw [List.cons_append, bestOf, List.foldl_append]
    simp [h]

theorem mergeRecords_filter (t : String) (rs : List AnimeRecord) :
    (mergeRecords rs).filter (fun r => decide (r.title = t)) =
      (bestOf (rs.filter (fun r => decide (r.title = t)))).toList := by
  induction rs using List.reverseRecOn with
  | nil => rfl
  | append_singleton rs r ih =>
    rw [mergeRecords_append, List.filter_append, mergeStep]
    by_cases hex : (mergeRecords rs).any (fun x => decide (dedupTitleKey x = dedupTitleKey r)) = true
    · rw [if_pos hex]
      have hf : ∀ x : AnimeRecord,
          decide ((if dedupTitleKey x = dedupTitleKey r then considerRecord x r else x).title = t)
            = decide (x.title = t) := by
        intro x
        split
        · next hx => rw [considerRecord_title x r hx]
        · rfl
      rw [filter_map_comm _ _ _ hf, ih]
      obtain ⟨x, hxm, hxt⟩ := List.any_eq_true.mp hex
      rw [decide_eq_true_iff] at hxt
      simp only [dedupTitleKey] at hxt
      by_cases hrt : r.title = t
      · have hfr : List.filter (fun q : AnimeRecord => decide (q.title = t)) [r] = [r] := by
          simp [hrt]
        rw [hfr]
        have hxf : x ∈ (mergeRecords rs).filter (fun q => decide (q.title = t)) :=
          List.mem_filter.mpr ⟨hxm, by simp [hxt, hrt]⟩
        rw [ih] at hxf
        cases hb : bestOf (rs.filter (fun q => decide (q.title = t))) with
        | none => rw [hb] at hxf; simp at hxf
        | some b =>
          have hbt : b.title = t := by
            rw [hb] at hxf
            simp only [Option.toList_some, List.mem_singleton] at hxf
            subst hxf
            exact hxt.trans hrt
          rw [bestOf_append_single _ b r hb]
          simp only [Option.toList_some, List.map_cons, List.map_nil]
          congr 1
          rw [if_pos]
          simp only [dedupTitleKey]
          rw [hbt, hrt]
      · have hfr : List.filter (fun q : AnimeRecord => decide (q.title = t)) [r] = [] := by
          simp [hrt]
        rw [hfr, List.append_nil]
        cases hb : bestOf (rs.filter (fun q => decide (q.title = t))) with
        | none => simp
        | some b =>
          have hbt : b.title = t := by
            have := bestOf_mem _ _ hb
            exact decide_eq_true_iff.mp (List.mem_filter.mp this).2
          simp only [Option.toList_some, List.map_cons, List.map_nil]
          congr 1
          rw [if_neg]
          simp only [dedupTitleKey]
          rw [hbt]
          exact fun hh => hrt hh.symm
    · rw [if_neg hex]
      rw [List.filter_append, ih]
      by_cases hrt : r.title = t
      · have hfr : List.filter (fun q : AnimeRecord => decide (q.title = t)) [r] = [r] := by
          simp [hrt]
        rw [hfr]
        have hnone : (mergeRecords rs).filter (fun q => decide (q.title = t)) = [] := by
          by_contra hne
          obtain ⟨y, hy⟩ := List.exists_mem_of_ne_nil _ hne
          have hym := List.mem_filter.mp hy
          apply hex
          refine List.any_eq_true.mpr ⟨y, hym.1, ?_⟩
          simp only [dedupTitleKey]
          rw [decide_eq_true_iff] at hym ⊢
          exact hym.2.trans hrt.symm
        rw [ih] at hnone
        have hgnil : rs.filter (fun q : AnimeRecord => decide (q.title = t)) = [] := by
          cases hb : bestOf (rs.filter (fun q => decide (q.title = t))) with
          | none => exact (bestOf_none_iff _).mp hb
          | some b => rw [hb] at hnone; simp at hnone
        rw [hgnil]
        rfl
      · have hfr : List.filter (fun q : AnimeRecord => decide (q.title = t)) [r] = [] := by
          simp [hrt]
        rw [hfr, List.append_nil, List.append_nil]

theorem foldl_consider_le (l : List AnimeRecord) :
    ∀ a : AnimeRecord, parseScore a.score ≤ parseScore (l.foldl considerRecord a).score ∧
      ∀ s ∈ l, parseScore s.score ≤ parseScore (l.foldl considerRecord a).score := by
  induction l with
  | nil => intro a; exact ⟨le_refl _, by simp⟩
  | cons x xs ih =>
    intro a
    rw [List.foldl_cons]
    obtain ⟨h1, h2⟩ := ih (considerRecord a x)
    have hax : parseScore a.score ≤ parseScore (considerRecord a x).score ∧
        parseScore x.score ≤ parseScore (considerRecord a x).score := by
      rw [considerRecord]
      split
      · next h => exact ⟨le_of_lt h, le_refl _⟩
      · next h => exact ⟨le_refl _, le_of_not_lt h⟩
    refine ⟨hax.1.trans h1, ?_⟩
    intro s hs
    rcases List.mem_cons.mp hs with rfl | hs2
    · exact hax.2.trans h1
    · exact h2 s hs2

theorem bestOf_max (g : List AnimeRecord) (b : AnimeRecord) (h : bestOf g = some b) :
    ∀ s ∈ g, parseScore s.score ≤ parseScore b.score := by
  cases g with
  | nil => simp [bestOf] at h
  | cons a as =>
    rw [bestOf] at h
    injection h with h
    intro s hs
    rw [← h]
    rcases List.mem_cons.mp hs with rfl | hs2
    · exact (foldl_consider_le as s).1
    · exact (foldl_consider_le as a).2 s hs2

theorem foldl_consider_first (l : List AnimeRecord) :
    ∀ a : AnimeRecord, ∃ l₁ l₂, a :: l = l₁ ++ (l.foldl considerRecord a) :: l₂ ∧
      ∀ s ∈ l₁, parseScore s.score < parseScore (l.foldl considerRecord a).score := by
  induction l with
  | nil => intro a; exact ⟨[], [], rfl, by simp⟩
  | cons x xs ih =>
    intro a
    rw [List.foldl_cons]
    by_cases hax : parseScore a.score < parseScore x.score
    · have hcx : considerRecord a x = x := by rw [considerRecord, if_pos hax]
      obtain ⟨l₁, l₂, hdec, hlt⟩ := ih x
      rw [hcx]
      refine ⟨a :: l₁, l₂, by rw [List.cons_append, ← hdec], ?_⟩
      intro s hs
      rcases List.mem_cons.mp hs with rfl | hs2
      · exact hax.trans_le (foldl_consider_le xs x).1
      · exact hlt s hs2
    · have hca : considerRecord a x = a := by rw [considerRecord, if_neg hax]
      obtain ⟨l₁, l₂, hdec, hlt⟩ := ih a
      rw [hca]
      cases l₁ with
      | nil =>
        simp only [List.nil_append, List.cons.injEq] at hdec
        refine ⟨[], x :: xs, ?_, by simp⟩
        rw [List.nil_append, ← hdec.1]
      | cons hd tl =>
        simp only [List.cons_append, List.cons.injEq] at hdec
        obtain ⟨hhda, hxs⟩ := hdec
        subst hhda
        refine ⟨a :: x :: tl, l₂, ?_, ?_⟩
        · rw [List.cons_append, List.cons_append, ← hxs]
        · intro s hs
          have hhd : parseScore a.score < parseScore (xs.foldl considerRecord a).score :=
            hlt a (List.mem_cons_self _ _)
          rcases List.mem_cons.mp hs with rfl | hs2
          · exact hhd
          · rcases List.mem_cons.mp hs2 with rfl | hs3
            · exact (le_of_not_lt hax).trans_lt hhd
            · exact hlt s (List.mem_cons_of_mem _ hs3)

theorem bestOf_first (g : List AnimeRecord) (b : AnimeRecord) (h : bestOf g = some b) :
    ∃ g₁ g₂, g = g₁ ++ b :: g₂ ∧ ∀ s ∈ g₁, parseScore s.score < parseScore b.score := by
  cases g with
  | nil => simp [bestOf] at h
  | cons a as =>
    rw [bestOf] at h
    injection h with h
    rw [← h]
    exact foldl_consider_first as a

theorem mergeRecords_length_le (rs : List AnimeRecord) :
    (mergeRecords rs).length ≤ rs.length := by
  induction rs using List.reverseRecOn with
  | nil => simp [mergeRecords]
  | append_singleton rs r ih =>
    rw [mergeRecords_append, mergeStep]
    split
    · simp only [List.length_map, List.length_append, List.length_singleton]
      omega
    · simp only [List.length_append, List.length_singleton]
      omega

theorem mergeRecords_group_rep (rs : List AnimeRecord) (r : AnimeRecord)
    (h : r ∈ mergeRecords rs) :
    bestOf (rs.filter (fun s => decide (s.title = r.title))) = some r := by
  have hr : r ∈ (mergeRecords rs).filter (fun s => decide (s.title = r.title)) :=
    List.mem_filter.mpr ⟨h, by simp⟩
  rw [mergeRecords_filter] at hr
  cases hb : bestOf (rs.filter (fun s => decide (s.title = r.title))) with
  | none => rw [hb] at hr; simp at hr
  | some b =>
    rw [hb] at hr
    simp only [Option.toList_some, List.mem_singleton] at hr
    rw [hr]

theorem parseScore_eq_of_findNumber (s : String) (q : ℚ) (hna : s ≠ "N/A") (he : s ≠ "")
    (h : findNumber s.data = some q) : parseScore s = q := by
  rw [parseScore, if_neg (by rintro (hh | hh) <;> [exact hna hh; exact he hh]), h]
  rfl

theorem parseScore_eval_80 : parseScore "8.0" = 8 := by
  rw [parseScore_eq_of_findNumber "8.0" (decimalValue ['8'] ['0']) (by decide) (by decide) rfl]
  norm_num [decimalValue, digitsToNat, show Char.toNat '8' = 56 from rfl,
    show Char.toNat '0' = 48 from rfl]

/-- Two records with the same title used in the spec's dedup example. -/
def x80rec : AnimeRecord := ⟨"1", "X", "8.0", "u1", "N/A", "S", "C"⟩

def x95rec : AnimeRecord := ⟨"2", "X", "9.5", "u2", "N/A", "S", "C"⟩

def xNArec : AnimeRecord := ⟨"1", "X", "N/A", "u1", "N/A", "S", "C"⟩

def x00rec : AnimeRecord := ⟨"2", "X", "0.0", "u2", "N/A", "S", "C"⟩

theorem parseScore_eval_NA : parseScore "N/A" = 0 := rfl

theorem parseScore_eval_00 : parseScore "0.0" = 0 := by
  rw [parseScore_eq_of_findNumber "0.0" (decimalValue ['0'] ['0']) (by decide) (by decide) rfl]
  norm_num [decimalValue, digitsToNat, show Char.toNat '0' = 48 from rfl]

theorem parseScore_eval_95 : parseScore "9.5" = 19 / 2 := by
  rw [parseScore_eq_of_findNumber "9.5" (decimalValue ['9'] ['5']) (by decide) (by decide) rfl]
  norm_num [decimalValue, digitsToNat, show Char.toNat '9' = 57 from rfl,
    show Char.toNat '5' = 53 from rfl]

/-- C1 counterexample: in a pooled list with a first record whose score is
"N/A" and a second record of the same title whose score "0.0" parses (its
string contains a decimal-looking substring), the merge keeps the "N/A"
record — the replacement fires only on a strictly greater parsed score, so an
"N/A" record does not lose to a record whose score parses to zero. -/
theorem merge_na_zero_counterexample :
    mergeRecords [xNArec, x00rec] = [xNArec] ∧ findNumber "0.0".data ≠ none := by
  constructor
  · norm_num [mergeRecords, mergeStep, considerRecord, dedupTitleKey, xNArec, x00rec,
      parseScore_eval_NA, parseScore_eval_00]
  · have h : findNumber "0.0".data = some (decimalValue ['0'] ['0']) := rfl
    simp [h]

/-- C1 (amended): the Deduplicator's merge never increases the record count;
restricted to any title group, its output is exactly the group's
representative — the first record attaining the group's maximal parsed
score — so every kept record weakly dominates all same-title records, all
strictly-better-scored records precede it nowhere in the group, an "N/A"
record loses to any record with a strictly positive parsed score, and when
parsed scores tie (including "N/A" against a score parsing to 0) the
first-seen record wins; the spec's concrete example holds:
`[{title:"X",score:"8.0"},{title:"X",score:"9.5"}]` merges to the "9.5"
record alone. -/
theorem merge_keeps_first_max :
    (∀ rs : List AnimeRecord, (mergeRecords rs).length ≤ rs.length) ∧
    (∀ (rs : List AnimeRecord) (t : String),
      (mergeRecords rs).filter (fun r => decide (r.title = t)) =
        (bestOf (rs.filter (fun r => decide (r.title = t)))).toList) ∧
    (∀ (rs : List AnimeRecord) (r : AnimeRecord), r ∈ mergeRecords rs →
      (∀ s ∈ rs, s.title = r.title → parseScore s.score ≤ parseScore r.score) ∧
      ∃ g₁ g₂, rs.filter (fun s => decide (s.title = r.title)) = g₁ ++ r :: g₂ ∧
        ∀ s ∈ g₁, parseScore s.score < parseScore r.score) ∧
    mergeRecords [x80rec, x95rec] = [x95rec] := by
  refine ⟨mergeRecords_length_le, fun rs t => mergeRecords_filter t rs, ?_, ?_⟩
  · intro rs r hr
    have hrep := mergeRecords_group_rep rs r hr
    constructor
    · intro s hs hst
      exact bestOf_max _ _ hrep s (List.mem_filter.mpr ⟨hs, by simp [hst]⟩)
    · exact bestOf_first _ _ hrep
  · norm_num [mergeRecords, mergeStep, considerRecord, dedupTitleKey, x80rec, x95rec,
      parseScore_eval_80, parseScore_eval_95]

/-- C1 witness: the merge theorem applied at the spec's concrete example. -/
theorem merge_keeps_first_max_witness : parseScore "8.0" ≤ parseScore "9.5" := by
  have h := merge_keeps_first_max
  have hmem : x95rec ∈ mergeRecords [x80rec, x95rec] := by
    rw [h.2.2.2]
    exact List.mem_singleton.mpr rfl
  exact (h.2.2.1 [x80rec, x95rec] x95rec hmem).1 x80rec (by simp) rfl

theorem mem_insDesc {α : Type} (key : α → ℚ) (a b : α) (l : List α) :
    b ∈ insDesc key a l ↔ b = a ∨ b ∈ l := by
  induction l with
  | nil => simp [insDesc]
  | cons x xs ih =>
    rw [insDesc]
    split
    · rw [List.mem_cons, ih, List.mem_cons]
      tauto
    · simp [List.mem_cons]

theorem pairwise_insDesc {α : Type} (key : α → ℚ) (a : α) (l : List α)
    (h : l.Pairwise (fun x y => key y ≤ key x)) :
    (insDesc key a l).Pairwise (fun x y => key y ≤ key x) := by
  induction l with
  | nil => simp [insDesc]
  | cons x xs ih =>
    rw [insDesc]
    rw [List.pairwise_cons] at h
    split
    · next hlt =>
      rw [List.pairwise_cons]
      refine ⟨?_, ih h.2⟩
      intro y hy
      rcases (mem_insDesc key a y xs).mp hy with rfl | hy2
      · exact le_of_lt hlt
      · exact h.1 y hy2
    · next hge =>
      rw [List.pairwise_cons]
      refine ⟨?_, List.pairwise_cons.mpr h⟩
      intro y hy
      rcases List.mem_cons.mp hy with rfl | hy2
      · exact le_of_not_lt hge
      · exact (h.1 y hy2).trans (le_of_not_lt hge)

theorem pairwise_sortDescBy {α : Type} (key : α → ℚ) (l : List α) :
    (sortDescBy key l).Pairwise (fun x y => key y ≤ key x) := by
  induction l with
  | nil => simp [sortDescBy]
  | cons a l ih =>
    rw [sortDescBy]
    exact pairwise_insDesc key a _ ih

theorem filter_insDesc {α : Type} (key : α → ℚ) (q : ℚ) (a : α) (l : List α) :
    (insDesc key a l).filter (fun x => decide (key x = q)) =
      if key a = q then a :: l.filter (fun x => decide (key x = q))
      else l.filter (fun x => decide (key x = q)) := by
  induction l with
  | nil =>
    rw [insDesc]
    by_cases haq : key a = q
    · rw [if_pos haq]
      simp [haq]
    · rw [if_neg haq]
      simp [haq]
  | cons x xs ih =>
    rw [insDesc]
    split
    · next hlt =>
      rw [List.filter_cons, ih]
      by_cases haq : key a = q
      · rw [if_pos haq, if_pos haq]
        have hxq : ¬(key x = q) := by
          intro hxq
          rw [haq, ← hxq] at hlt
          exact lt_irrefl _ hlt
        rw [List.filter_cons]
        simp [hxq]
      · rw [if_neg haq, if_neg haq, List.filter_cons]
    · next hge =>
      rw [List.filter_cons]
      by_cases haq : key a = q
      · rw [if_pos haq]
        simp [haq]
      · rw [if_neg haq]
        simp [haq]

theorem filter_sortDescBy {α : Type} (key : α → ℚ) (q : ℚ) (l : List α) :
    (sortDescBy key l).filter (fun x => decide (key x = q)) =
      l.filter (fun x => decide (key x = q)) := by
  induction l with
  | nil => rfl
  | cons a l ih =>
    rw [sortDescBy, filter_insDesc, List.filter_cons, ih]
    by_cases haq : key a = q
    · simp [haq]
    · simp [haq]

theorem mem_sortDescBy {α : Type} (key : α → ℚ) (b : α) (l : List α) :
    b ∈ sortDescBy key l ↔ b ∈ l := by
  induction l with
  | nil => simp [sortDescBy]
  | cons a l ih =>
    rw [sortDescBy, mem_insDesc, ih, List.mem_cons]

theorem assignRanks_length (cat : String) :
    ∀ (i : Nat) (l : List AnimeRecord), (assignRanks cat i l).length = l.length := by
  intro i l
  induction l generalizing i with
  | nil => rfl
  | cons r rs ih =>
    rw [assignRanks, List.length_cons, List.length_cons, ih]

theorem assignRanks_map_rank (cat : String) :
    ∀ (i : Nat) (l : List AnimeRecord),
      (assignRanks cat i l).map (fun r => r.rank) =
        (List.range' (i + 1) l.length).map toString := by
  intro i l
  induction l generalizing i with
  | nil => rfl
  | cons r rs ih =>
    rw [assignRanks, List.map_cons, List.length_cons, List.range'_succ, List.map_cons, ih]

theorem mem_assignRanks (cat : String) :
    ∀ (i : Nat) (l : List AnimeRecord) (y : AnimeRecord), y ∈ assignRanks cat i l →
      ∃ x ∈ l, y.score = x.score ∧ y.title = x.title := by
  intro i l
  induction l generalizing i with
  | nil => intro y hy; simp [assignRanks] at hy
  | cons r rs ih =>
    intro y hy
    rw [assignRanks] at hy
    rcases List.mem_cons.mp hy with rfl | hy2
    · exact ⟨r, List.mem_cons_self _ _, rfl, rfl⟩
    · obtain ⟨x, hx, hxs⟩ := ih (i + 1) y hy2
      exact ⟨x, List.mem_cons_of_mem _ hx, hxs⟩

theorem pairwise_assignRanks (cat : String) :
    ∀ (i : Nat) (l : List AnimeRecord),
      l.Pairwise (fun a b => parseScore b.score ≤ parseScore a.score) →
      (assignRanks cat i l).Pairwise (fun a b => parseScore b.score ≤ parseScore a.score) := by
  intro i l
  induction l generalizing i with
  | nil => intro _; simp [assignRanks]
  | cons r rs ih =>
    intro h
    rw [List.pairwise_cons] at h
    rw [assignRanks, List.pairwise_cons]
    refine ⟨?_, ih (i + 1) h.2⟩
    intro y hy
    obtain ⟨x, hx, hys, _⟩ := mem_assignRanks cat (i + 1) rs y hy
    rw [hys]
    exact h.1 x hx

theorem filter_map_title_assignRanks (cat : String) (q : ℚ) :
    ∀ (i : Nat) (l : List AnimeRecord),
      ((assignRanks cat i l).filter (fun r => decide (parseScore r.score = q))).map
          (fun r => r.title) =
        (l.filter (fun r => decide (parseScore r.score = q))).map (fun r => r.title) := by
  intro i l
  induction l generalizing i with
  | nil => rfl
  | cons r rs ih =>
    rw [assignRanks, List.filter_cons, List.filter_cons]
    by_cases hq : parseScore r.score = q
    · simp [hq, ih]
    · simp [hq, ih]

theorem pipeline_parts (catName : String) (limit : Nat) (pooled : List AnimeRecord) :
    categoryPipeline catName limit pooled =
      assignRanks catName 0 ((sortRecords (mergeRecords pooled)).take limit) := rfl

theorem pipeline_rank_sequence (catName : String) (limit : Nat) (pooled : List AnimeRecord) :
    (categoryPipeline catName limit pooled).map (fun r => r.rank) =
      (List.range' 1 (categoryPipeline catName limit pooled).length).map toString := by
  rw [pipeline_parts, assignRanks_map_rank, assignRanks_length]

theorem pipeline_length_le (catName : String) (limit : Nat) (pooled : List AnimeRecord) :
    (categoryPipeline catName limit pooled).length ≤ limit := by
  rw [pipeline_parts, assignRanks_length, List.length_take]
  exact min_le_left _ _

theorem pipeline_sorted (catName : String) (limit : Nat) (pooled : List AnimeRecord) :
    (categoryPipeline catName limit pooled).Pairwise
      (fun a b => parseScore b.score ≤ parseScore a.score) := by
  rw [pipeline_parts]
  refine pairwise_assignRanks catName 0 _ ?_
  refine List.Pairwise.sublist (List.take_sublist limit _) ?_
  exact pairwise_sortDescBy _ _

theorem pipeline_tie_order (catName : String) (limit : Nat) (pooled : List AnimeRecord)
    (q : ℚ) :
    ∃ rest : List String,
      ((mergeRecords pooled).filter (fun r => decide (parseScore r.score = q))).map
          (fun r => r.title) =
        ((categoryPipeline catName limit pooled).filter
            (fun r => decide (parseScore r.score = q))).map (fun r => r.title) ++ rest := by
  refine ⟨(((sortRecords (mergeRecords pooled)).drop limit).filter
      (fun r => decide (parseScore r.score = q))).map (fun r => r.title), ?_⟩
  rw [pipeline_parts, filter_map_title_assignRanks]
  have hsplit : sortRecords (mergeRecords pooled) =
      (sortRecords (mergeRecords pooled)).take limit ++
        (sortRecords (mergeRecords pooled)).drop limit :=
    (List.take_append_drop limit _).symm
  have hs : (mergeRecords pooled).filter (fun r => decide (parseScore r.score = q)) =
      (sortRecords (mergeRecords pooled)).filter (fun r => decide (parseScore r.score = q)) := by
    rw [sortRecords]
    exact (filter_sortDescBy (fun r => parseScore r.score) q (mergeRecords pooled)).symm
  rw [hs]
  conv_lhs => rw [hsplit]
  rw [List.filter_append, List.map_append]

/-- C2 (amended): for every category pipeline run, the ranks of the output
form the strict string sequence "1".."N" with N ≤ the requested limit, the
output is ordered descending by parsed score (missing scores parse as 0.0),
and records with equal parsed scores appear in the order in which their
title groups were first encountered in the pooled list (the merge map's
insertion order) — not necessarily in the surviving records' own encounter
order. -/
theorem pipeline_rank_sort_amended (catName : String) (limit : Nat)
    (pooled : List AnimeRecord) :
    (categoryPipeline catName limit pooled).map (fun r => r.rank) =
        (List.range' 1 (categoryPipeline catName limit pooled).length).map toString ∧
    (categoryPipeline catName limit pooled).length ≤ limit ∧
    (categoryPipeline catName limit pooled).Pairwise
        (fun a b => parseScore b.score ≤ parseScore a.score) ∧
    ∀ q : ℚ, ∃ rest : List String,
      ((mergeRecords pooled).filter (fun r => decide (parseScore r.score = q))).map
          (fun r => r.title) =
        ((categoryPipeline catName limit pooled).filter
            (fun r => decide (parseScore r.score = q))).map (fun r => r.title) ++ rest :=
  ⟨pipeline_rank_sequence catName limit pooled, pipeline_length_le catName limit pooled,
    pipeline_sorted catName limit pooled, pipeline_tie_order catName limit pooled⟩

def a3rec : AnimeRecord := ⟨"1", "A", "3.0", "uA1", "N/A", "S", "C"⟩

def b7rec : AnimeRecord := ⟨"2", "B", "7.0", "uB", "N/A", "S", "C"⟩

def a7rec : AnimeRecord := ⟨"3", "A", "7.0", "uA2", "N/A", "S", "C"⟩

theorem parseScore_eval_30 : parseScore "3.0" = 3 := by
  rw [parseScore_eq_of_findNumber "3.0" (decimalValue ['3'] ['0']) (by decide) (by decide) rfl]
  norm_num [decimalValue, digitsToNat, show Char.toNat '3' = 51 from rfl,
    show Char.toNat '0' = 48 from rfl]

theorem parseScore_eval_70 : parseScore "7.0" = 7 := by
  rw [parseScore_eq_of_findNumber "7.0" (decimalValue ['7'] ['0']) (by decide) (by decide) rfl]
  norm_num [decimalValue, digitsToNat, show Char.toNat '7' = 55 from rfl,
    show Char.toNat '0' = 48 from rfl]

/-- C2 counterexample: pooling `[A/3.0 at uA1, B/7.0 at uB, A/7.0 at uA2]`,
the pipeline returns the record from `uA2` before the record from `uB`
although both parse to the same score and `uA2` was encountered after `uB` —
the dict keeps a replaced group at its first-seen position, so equal-score
records do not appear in their own encounter order. -/
theorem pipeline_tie_counterexample :
    categoryPipeline "Cat" 20 [a3rec, b7rec, a7rec] =
      [{ a7rec with category := "Cat", rank := "1" },
       { b7rec with category := "Cat", rank := "2" }] ∧
    parseScore a7rec.score = parseScore b7rec.score ∧
    List.indexOf b7rec [a3rec, b7rec, a7rec] = 1 ∧
    List.indexOf a7rec [a3rec, b7rec, a7rec] = 2 := by
  refine ⟨?_, ?_, by decide, by decide⟩
  · norm_num [categoryPipeline, mergeRecords, mergeStep, considerRecord, dedupTitleKey,
      sortRecords, sortDescBy, insDesc, assignRanks, a3rec, b7rec, a7rec,
      parseScore_eval_30, parseScore_eval_70, show toString 1 = "1" from rfl,
      show toString 2 = "2" from rfl]
  · norm_num [a7rec, b7rec, parseScore_eval_70]

theorem scrapeCategory_unknown {Q : Type} (env : Q → List AnimeRecord)
    (cats : List (String × CatInfo Q)) (key : String) (limit : Nat)
    (h : cats.lookup key = none) : scrapeCategory env cats key limit = [] := by
  rw [scrapeCategory, h]

theorem scrapeAllCategories_keys {Q : Type} (env : Q → List AnimeRecord)
    (cats : List (String × CatInfo Q)) (limit : Nat) :
    (scrapeAllCategories env cats limit).map Prod.fst = cats.map Prod.fst := by
  rw [scrapeAllCategories, List.map_map]
  rfl

theorem scrapeCategory_emptyEnv {Q : Type} (cats : List (String × CatInfo Q)) (key : String)
    (limit : Nat) : scrapeCategory (fun _ : Q => ([] : List AnimeRecord)) cats key limit = [] := by
  rw [scrapeCategory]
  cases h : cats.lookup key with
  | none => rfl
  | some cat =>
    show categoryPipeline cat.name limit
        (cat.queries.map (fun _ => ([] : List AnimeRecord))).flatten = []
    have hflat : (cat.queries.map (fun _ => ([] : List AnimeRecord))).flatten = [] := by simp
    rw [hflat]
    simp [categoryPipeline, mergeRecords, sortRecords, sortDescBy, assignRanks]

theorem scrapeAllCategories_emptyEnv {Q : Type} (cats : List (String × CatInfo Q))
    (limit : Nat) :
    scrapeAllCategories (fun _ : Q => ([] : List AnimeRecord)) cats limit =
      cats.map (fun p => (p.1, [])) := by
  rw [scrapeAllCategories]
  exact List.map_congr_left fun p _ => by rw [scrapeCategory_emptyEnv]

/-- C8: for both the MAL and AnimePlanet category tables, a key not present
in the configured categories makes `scrape_category` return the empty list,
`scrape_all_categories` always binds exactly the configured keys, and when
every fetch fails each configured key is still present, bound to the empty
list. -/
theorem unknown_category_empty :
    (∀ (env : Nat → List AnimeRecord) (key : String) (limit : Nat),
        malCategories.lookup key = none → scrapeCategory env malCategories key limit = []) ∧
    (∀ (env : String → List AnimeRecord) (key : String) (limit : Nat),
        apCategories.lookup key = none → scrapeCategory env apCategories key limit = []) ∧
    (∀ (env : Nat → List AnimeRecord) (limit : Nat),
        (scrapeAllCategories env malCategories limit).map Prod.fst =
          malCategories.map Prod.fst) ∧
    (∀ (env : String → List AnimeRecord) (limit : Nat),
        (scrapeAllCategories env apCategories limit).map Prod.fst =
          apCategories.map Prod.fst) ∧
    (∀ limit : Nat,
        scrapeAllCategories (fun _ : Nat => ([] : List AnimeRecord)) malCategories limit =
          malCategories.map (fun p => (p.1, []))) ∧
    (∀ limit : Nat,
        scrapeAllCategories (fun _ : String => ([] : List AnimeRecord)) apCategories limit =
          apCategories.map (fun p => (p.1, []))) :=
  ⟨fun env key limit h => scrapeCategory_unknown env malCategories key limit h,
   fun env key limit h => scrapeCategory_unknown env apCategories key limit h,
   fun env limit => scrapeAllCategories_keys env malCategories limit,
   fun env limit => scrapeAllCategories_keys env apCategories limit,
   fun limit => scrapeAllCategories_emptyEnv malCategories limit,
   fun limit => scrapeAllCategories_emptyEnv apCategories limit⟩

/-- C8 witness: the category theorem applied at an unconfigured key and a
failing environment. -/
theorem unknown_category_empty_witness :
    scrapeCategory (fun _ : Nat => ([] : List AnimeRecord)) malCategories "science_fiction" 20
        = [] ∧
    (scrapeAllCategories (fun _ : Nat => ([] : List AnimeRecord)) malCategories 7).map
        Prod.fst = malCategories.map Prod.fst :=
  ⟨unknown_category_empty.1 _ "science_fiction" 20 (by decide),
   unknown_category_empty.2.2.1 _ 7⟩

theorem apLoop_congr (fuel : Nat) : ∀ (attempt : Nat) (o o' : Nat → FetchOutcome),
    (∀ i, attempt ≤ i → i < attempt + fuel → o i = o' i) →
    apLoop o fuel attempt = apLoop o' fuel attempt := by
  induction fuel with
  | zero => intro attempt o o' _; rfl
  | succ fuel ih =>
    intro attempt o o' h
    have h0 : o' attempt = o attempt := (h attempt (le_refl _) (by omega)).symm
    have hrec : apLoop o fuel (attempt + 1) = apLoop o' fuel (attempt + 1) :=
      ih (attempt + 1) o o' (fun i hi1 hi2 => h i (by omega) (by omega))
    rw [apLoop, apLoop, h0, hrec]

theorem apMakeRequest_first3 (o o' : Nat → FetchOutcome)
    (h : ∀ i, i < 3 → o i = o' i) : apMakeRequest o = apMakeRequest o' := by
  rw [apMakeRequest, apMakeRequest]
  exact apLoop_congr 3 0 o o' (fun i _ hi2 => h i (by omega))

theorem apMakeRequest_success (o : Nat → FetchOutcome) (b : String)
    (h : o 0 = .resp 200 b) : apMakeRequest o = (some b, []) := by
  rw [apMakeRequest, apLoop, h]

theorem apLoop_403_retry (o : Nat → FetchOutcome) (fuel attempt : Nat) (b : String)
    (ho : o attempt = .resp 403 b) (ha : attempt ≠ 2) :
    apLoop o (fuel + 1) attempt =
      ((apLoop o fuel (attempt + 1)).1,
        5 * (attempt + 1) :: (apLoop o fuel (attempt + 1)).2) := by
  rw [apLoop, ho]
  simp [ha]

theorem apLoop_403_last (o : Nat → FetchOutcome) (fuel : Nat) (b : String)
    (ho : o 2 = .resp 403 b) : apLoop o (fuel + 1) 2 = (none, [15]) := by
  rw [apLoop, ho]
  simp

theorem apLoop_status_retry (o : Nat → FetchOutcome) (fuel attempt c : Nat) (b : String)
    (ho : o attempt = .resp c b) (hc200 : c ≠ 200) (hc403 : c ≠ 403) (ha : attempt ≠ 2) :
    apLoop o (fuel + 1) attempt =
      ((apLoop o fuel (attempt + 1)).1, 5 :: (apLoop o fuel (attempt + 1)).2) := by
  rw [apLoop, ho]
  split
  · next heq =>
    injection heq with hc hb
    exact absurd hc hc200
  · next heq =>
    injection heq with hc hb
    exact absurd hc hc403
  · simp [ha]
  · next heq => exact absurd heq (by simp)

theorem apLoop_status_last (o : Nat → FetchOutcome) (fuel c : Nat) (b : String)
    (ho : o 2 = .resp c b) (hc200 : c ≠ 200) (hc403 : c ≠ 403) :
    apLoop o (fuel + 1) 2 = (none, []) := by
  rw [apLoop, ho]
  split
  · next heq =>
    injection heq with hc hb
    exact absurd hc hc200
  · next heq =>
    injection heq with hc hb
    exact absurd hc hc403
  · simp
  · next heq => exact absurd heq (by simp)

theorem apLoop_exn_retry (o : Nat → FetchOutcome) (fuel attempt : Nat)
    (ho : o attempt = .exn) (ha : attempt ≠ 2) :
    apLoop o (fuel + 1) attempt =
      ((apLoop o fuel (attempt + 1)).1, 5 :: (apLoop o fuel (attempt + 1)).2) := by
  rw [apLoop, ho]
  simp [ha]

theorem apLoop_exn_last (o : Nat → FetchOutcome) (fuel : Nat) (ho : o 2 = .exn) :
    apLoop o (fuel + 1) 2 = (none, []) := by
  rw [apLoop, ho]
  simp

theorem apLoop_exhaust (fuel : Nat) : ∀ (attempt : Nat) (o : Nat → FetchOutcome),
    (∀ i b, o i ≠ .resp 200 b) → (apLoop o fuel attempt).1 = none := by
  induction fuel with
  | zero => intro _ _ _; rfl
  | succ fuel ih =>
    intro attempt o h
    rw [apLoop]
    split
    · next b heq => exact absurd heq (h attempt b)
    · split
      · rfl
      · simp [ih (attempt + 1) o h]
    · split
      · rfl
      · simp [ih (attempt + 1) o h]
    · split
      · rfl
      · simp [ih (attempt + 1) o h]

theorem apMakeRequest_exhaust (o : Nat → FetchOutcome)
    (h : ∀ i, i < 3 → ∀ b, o i ≠ .resp 200 b) : (apMakeRequest o).1 = none := by
  have hcongr : apMakeRequest o =
      apMakeRequest (fun i => if i < 3 then o i else .exn) :=
    apMakeRequest_first3 _ _ (fun i hi => by simp [hi])
  rw [hcongr, apMakeRequest]
  refine apLoop_exhaust 3 0 _ ?_
  intro i b
  by_cases hi : i < 3
  · simpa [hi] using h i hi b
  · simp [hi]

/-- C5 counterexample: with a 500 response on the first attempt and a 200 on
the second, the fetcher sleeps 5 seconds and returns the second attempt's
document — a non-200, non-403 status is not a terminal failure. -/
theorem retry_status_counterexample :
    apMakeRequest (fun i => if i = 0 then FetchOutcome.resp 500 "" else FetchOutcome.resp 200 "B")
        = (some "B", [5]) ∧
    (fun i => if i = 0 then FetchOutcome.resp 500 "" else FetchOutcome.resp 200 "B") 0
        = FetchOutcome.resp 500 "" ∧
    (500 : Nat) ≠ 200 ∧ (500 : Nat) ≠ 403 := by
  refine ⟨by decide, rfl, by decide, by decide⟩

/-- C5 (amended): the retry loop makes at most 3 attempts (the result
depends only on the first three outcomes); a 200 returns the body at once;
a 403 sleeps `5 × attempt_number` and retries (on the third attempt it
sleeps and then gives up); any other non-200 status and any transport
exception sleep 5 seconds and retry, failing without an extra sleep only on
the third attempt; when no attempt returns 200 the loop returns no
document. -/
theorem retry_amended :
    (∀ o o' : Nat → FetchOutcome, (∀ i, i < 3 → o i = o' i) →
      apMakeRequest o = apMakeRequest o') ∧
    (∀ (o : Nat → FetchOutcome) (b : String), o 0 = .resp 200 b →
      apMakeRequest o = (some b, [])) ∧
    (∀ (o : Nat → FetchOutcome) (fuel attempt : Nat) (b : String),
      o attempt = .resp 403 b → attempt ≠ 2 →
      apLoop o (fuel + 1) attempt = ((apLoop o fuel (attempt + 1)).1,
        5 * (attempt + 1) :: (apLoop o fuel (attempt + 1)).2)) ∧
    (∀ (o : Nat → FetchOutcome) (fuel : Nat) (b : String), o 2 = .resp 403 b →
      apLoop o (fuel + 1) 2 = (none, [15])) ∧
    (∀ (o : Nat → FetchOutcome) (fuel attempt c : Nat) (b : String),
      o attempt = .resp c b → c ≠ 200 → c ≠ 403 → attempt ≠ 2 →
      apLoop o (fuel + 1) attempt = ((apLoop o fuel (attempt + 1)).1,
        5 :: (apLoop o fuel (attempt + 1)).2)) ∧
    (∀ (o : Nat → FetchOutcome) (fuel c : Nat) (b : String),
      o 2 = .resp c b → c ≠ 200 → c ≠ 403 → apLoop o (fuel + 1) 2 = (none, [])) ∧
    (∀ (o : Nat → FetchOutcome) (fuel attempt : Nat), o attempt = .exn → attempt ≠ 2 →
      apLoop o (fuel + 1) attempt = ((apLoop o fuel (attempt + 1)).1,
        5 :: (apLoop o fuel (attempt + 1)).2)) ∧
    (∀ (o : Nat → FetchOutcome) (fuel : Nat), o 2 = .exn →
      apLoop o (fuel + 1) 2 = (none, [])) ∧
    (∀ o : Nat → FetchOutcome, (∀ i, i < 3 → ∀ b, o i ≠ .resp 200 b) →
      (apMakeRequest o).1 = none) :=
  ⟨apMakeRequest_first3, apMakeRequest_success,
   fun o fuel attempt b ho ha => apLoop_403_retry o fuel attempt b ho ha,
   fun o fuel b ho => apLoop_403_last o fuel b ho,
   fun o fuel attempt c b ho h2 h4 ha => apLoop_status_retry o fuel attempt c b ho h2 h4 ha,
   fun o fuel c b ho h2 h4 => apLoop_status_last o fuel c b ho h2 h4,
   fun o fuel attempt ho ha => apLoop_exn_retry o fuel attempt ho ha,
   fun o fuel ho => apLoop_exn_last o fuel ho,
   apMakeRequest_exhaust⟩

/-- C5 witness: the retry theorem applied at concrete outcome scripts. -/
theorem retry_amended_witness :
    apMakeRequest (fun _ => FetchOutcome.resp 200 "B") = (some "B", []) ∧
    (apMakeRequest (fun _ => FetchOutcome.exn)).1 = none ∧
    apLoop (fun _ => FetchOutcome.resp 403 "x") 2 1 =
      ((apLoop (fun _ => FetchOutcome.resp 403 "x") 1 2).1,
        10 :: (apLoop (fun _ => FetchOutcome.resp 403 "x") 1 2).2) ∧
    apLoop (fun _ => FetchOutcome.resp 500 "e") 2 1 =
      ((apLoop (fun _ => FetchOutcome.resp 500 "e") 1 2).1,
        5 :: (apLoop (fun _ => FetchOutcome.resp 500 "e") 1 2).2) :=
  ⟨retry_amended.2.1 _ "B" rfl,
   retry_amended.2.2.2.2.2.2.2.2 _ (fun i _ b => by simp),
   retry_amended.2.2.1 _ 1 1 "x" rfl (by decide),
   retry_amended.2.2.2.2.1 _ 1 1 500 "e" rfl (by decide) (by decide) (by decide)⟩

theorem malParseRows_stop (catName : String) (limit : Nat) (rows : List MalRow) (count : Nat)
    (h : limit ≤ count) : malParseRows catName limit rows count = [] := by
  cases rows with
  | nil => rfl
  | cons row rows => rw [malParseRows, if_pos h]

theorem malParseRows_titles (catName : String) (limit : Nat) :
    ∀ (rows : List MalRow) (count : Nat) (r : AnimeRecord),
      r ∈ malParseRows catName limit rows count → r.title ≠ "" ∧ r.title ≠ "N/A" := by
  intro rows
  induction rows with
  | nil => intro count r hr; simp [malParseRows] at hr
  | cons row rows ih =>
    intro count r hr
    rw [malParseRows] at hr
    by_cases hl : limit ≤ count
    · rw [if_pos hl] at hr; simp at hr
    · rw [if_neg hl] at hr
      cases hlink : row.titleLink with
      | none =>
        rw [hlink] at hr
        exact ih count r hr
      | some p =>
        obtain ⟨text, href⟩ := p
        rw [hlink] at hr
        dsimp only at hr
        split at hr
        · exact ih count r hr
        · next hgood =>
          rcases List.mem_cons.mp hr with rfl | hr2
          · exact ⟨fun hh => hgood (Or.inl hh), fun hh => hgood (Or.inr hh)⟩
          · exact ih (count + 1) r hr2

theorem malParseRows_skip (catName : String) (limit : Nat) (row : MalRow)
    (rows : List MalRow) (count : Nat)
    (h : malRowTitle row = none ∨ malRowTitle row = some "" ∨ malRowTitle row = some "N/A") :
    malParseRows catName limit (row :: rows) count = malParseRows catName limit rows count := by
  rw [malParseRows]
  by_cases hl : limit ≤ count
  · rw [if_pos hl, malParseRows_stop catName limit rows count hl]
  · rw [if_neg hl]
    cases hlink : row.titleLink with
    | none => rfl
    | some p =>
      obtain ⟨text, href⟩ := p
      rw [malRowTitle, hlink] at h
      dsimp only
      rcases h with h | h | h
      · exact absurd h (by simp)
      · have h' : pyStripS text = "" := by simpa using h
        rw [if_pos (Or.inl h')]
      · have h' : pyStripS text = "N/A" := by simpa using h
        rw [if_pos (Or.inr h')]

/-- C6 counterexample: an AnimePlanet card with no anime link still produces
a record, whose title is the "N/A" sentinel — the AnimePlanet extractor does
not skip entries lacking an extractable title. -/
theorem extract_na_counterexample :
    apExtractList [⟨none, some "Some Show", none, none, none, none, none, [], none, none⟩]
        20 "romance" =
      [{ rank := "1", title := "N/A", score := "N/A", url := "N/A", additionalInfo := "",
         source := "AnimePlanet", category := "romance" }] := by
  decide

/-- C6 (amended): the MAL extractor skips every row without an extractable
title (none with an empty or "N/A" title appears in its output, and a
skipped row leaves the remaining rows' extraction unchanged), but the
AnimePlanet extractor emits a record with title "N/A" when no title is
extractable, and the AniDB extractor emits a record with an empty title when
the title cell is empty. -/
theorem extract_skip_amended :
    (∀ (rows : List MalRow) (catName : String) (limit : Nat) (r : AnimeRecord),
        r ∈ malParseAnimeSearchList rows catName limit → r.title ≠ "" ∧ r.title ≠ "N/A") ∧
    (∀ (row : MalRow) (rows : List MalRow) (catName : String) (limit : Nat),
        (malRowTitle row = none ∨ malRowTitle row = some "" ∨ malRowTitle row = some "N/A") →
        malParseAnimeSearchList (row :: rows) catName limit =
          malParseAnimeSearchList rows catName limit) ∧
    (apExtractList [⟨none, some "Card Without Link", none, none, none, none, none, [], none,
        none⟩] 20 "comedy").map (fun r => r.title) = ["N/A"] ∧
    (anidbParseAnimeList (some [⟨[]⟩, ⟨[⟨"", none⟩, ⟨"TV", none⟩, ⟨"12", none⟩]⟩])
        "Comedy" 20).map (fun r => r.title) = [""] := by
  refine ⟨?_, ?_, by decide, by decide⟩
  · intro rows catName limit r hr
    exact malParseRows_titles catName limit rows 0 r hr
  · intro row rows catName limit h
    exact malParseRows_skip catName limit row rows 0 h

/-- C6 witness: the extractor theorem applied at concrete rows. -/
theorem extract_skip_amended_witness :
    malParseAnimeSearchList [⟨none, []⟩, ⟨some ("Good Show", "/anime/2"), []⟩] "Cat" 20 =
        malParseAnimeSearchList [⟨some ("Good Show", "/anime/2"), []⟩] "Cat" 20 ∧
    ({ rank := "1", title := "Good Show", score := "N/A",
       url := "https://myanimelist.net/anime/2", additionalInfo := "N/A",
       source := "MyAnimeList", category := "Cat" } : AnimeRecord).title ≠ "" :=
  ⟨extract_skip_amended.2.1 ⟨none, []⟩ [⟨some ("Good Show", "/anime/2"), []⟩] "Cat" 20
      (Or.inl rfl),
   (extract_skip_amended.1 [⟨some ("Good Show", "/anime/2"), []⟩] "Cat" 20 _ (by decide)).1⟩

/-- C7: the cache-key function is deterministic (a pure function of the URL
string), and the AniDB URLs for `tag.include=comedy` and
`tag.include=romance` map to the distinct concrete cache filenames shown. -/
theorem cache_key_deterministic_distinct :
    (∀ site base u v : String, u = v →
        getCacheFilename site base u = getCacheFilename site base v) ∧
    anidbCacheFilename
        "https://anidb.net/anime/?tag.include=comedy&orderby.name=rating.rating&orderby.order=desc"
      = "html_cache/anidb_anime_tag_include_comedy_orderby_name_rating_rating_orderby_order_desc.html" ∧
    anidbCacheFilename
        "https://anidb.net/anime/?tag.include=romance&orderby.name=rating.rating&orderby.order=desc"
      = "html_cache/anidb_anime_tag_include_romance_orderby_name_rating_rating_orderby_order_desc.html" ∧
    anidbCacheFilename
        "https://anidb.net/anime/?tag.include=comedy&orderby.name=rating.rating&orderby.order=desc"
      ≠ anidbCacheFilename
        "https://anidb.net/anime/?tag.include=romance&orderby.name=rating.rating&orderby.order=desc" :=
  ⟨fun _ _ _ _ h => by rw [h], by decide, by decide, by decide⟩

/-- C7 witness: determinism applied at a concrete MAL URL. -/
theorem cache_key_deterministic_distinct_witness :
    getCacheFilename "mal" "https://myanimelist.net"
        "https://myanimelist.net/anime.php?genre[]=22&o=3" =
      getCacheFilename "mal" "https://myanimelist.net"
        "https://myanimelist.net/anime.php?genre[]=22&o=3" :=
  cache_key_deterministic_distinct.1 "mal" "https://myanimelist.net" _ _ rfl

theorem bumpWord_keys (m : List (String × Nat)) (w : String) :
    ∀ p ∈ bumpWord m w, p.1 = w ∨ ∃ q ∈ m, p.1 = q.1 := by
  intro p hp
  rw [bumpWord] at hp
  split at hp
  · rcases List.mem_map.mp hp with ⟨q, hq, hpq⟩
    right
    refine ⟨q, hq, ?_⟩
    rw [← hpq]
    split <;> rfl
  · rcases List.mem_append.mp hp with h | h
    · right; exact ⟨p, h, rfl⟩
    · left
      rw [List.mem_singleton] at h
      rw [h]

theorem countWords_keys (ws : List String) : ∀ p ∈ countWords ws, p.1 ∈ ws := by
  induction ws using List.reverseRecOn with
  | nil => intro p hp; simp [countWords] at hp
  | append_singleton ws w ih =>
    intro p hp
    rw [countWords, List.foldl_append, List.foldl_cons, List.foldl_nil] at hp
    rcases bumpWord_keys (countWords ws) w p hp with h | ⟨q, hq, hpq⟩
    · rw [h]
      exact List.mem_append.mpr (Or.inr (List.mem_singleton_self _))
    · exact List.mem_append.mpr (Or.inl (hpq ▸ ih q hq))

theorem mostCommon_subset (n : Nat) (m : List (String × Nat)) :
    ∀ p ∈ mostCommon n m, p ∈ m := by
  intro p hp
  rw [mostCommon] at hp
  have := List.take_subset n _ hp
  exact (mem_sortDescBy _ p m).mp this

theorem mostCommon_length_le (n : Nat) (m : List (String × Nat)) :
    (mostCommon n m).length ≤ n := by
  rw [mostCommon, List.length_take]
  exact min_le_left _ _

/-- C9 (amended): every word in the report's `common_words` does occur as a
token of some collected title and at most 50 entries are stored, but the
words-of-length-greater-than-2 restriction applies only to the console
listing (`printedTitleWords`), not to the exported report. -/
theorem common_words_amended :
    (∀ (data : List (String × List (String × List AnimeRecord)))
        (l : List (String × Nat)) (w : String) (c : Nat),
        commonWordsReport data = some l → (w, c) ∈ l →
        w ∈ (collectTitles data).flatMap tokenizeTitle) ∧
    (∀ (data : List (String × List (String × List AnimeRecord))) (l : List (String × Nat)),
        commonWordsReport data = some l → l.length ≤ 50) ∧
    (∀ (data : List (String × List (String × List AnimeRecord))) (w : String),
        w ∈ printedTitleWords data → 2 < w.length) := by
  refine ⟨?_, ?_, ?_⟩
  · intro data l w c hrep hmem
    rw [commonWordsReport] at hrep
    split at hrep
    · cases hrep
    · injection hrep with hrep
      rw [← hrep] at hmem
      have := mostCommon_subset 50 _ _ hmem
      have hk := countWords_keys _ _ this
      exact hk
  · intro data l hrep
    rw [commonWordsReport] at hrep
    split at hrep
    · cases hrep
    · injection hrep with hrep
      rw [← hrep]
      exact mostCommon_length_le 50 _
  · intro data w hw
    rw [printedTitleWords] at hw
    split at hw
    · simp at hw
    · rcases List.mem_map.mp hw with ⟨p, hp, hpw⟩
      have := (List.mem_filter.mp hp).2
      rw [decide_eq_true_iff] at this
      rw [← hpw]
      exact this

/-- A one-record data set whose title tokenizes to words including the
two-letter word "no". -/
def ngnlData : List (String × List (String × List AnimeRecord)) :=
  [("mal", [("romance",
      [⟨"1", "No Game No Life", "8.2", "u", "TV", "MyAnimeList", "Romance"⟩])])]

theorem commonWordsReport_ngnl :
    commonWordsReport ngnlData = some [("no", 2), ("game", 1), ("life", 1)] := by
  have h1 : countWords ((collectTitles ngnlData).flatMap tokenizeTitle) =
      [("no", 2), ("game", 1), ("life", 1)] := by decide
  have h3 : mostCommon 50 [("no", 2), ("game", 1), ("life", 1)] =
      [("no", 2), ("game", 1), ("life", 1)] := by
    norm_num [mostCommon, sortDescBy, insDesc]
  rw [commonWordsReport, if_neg (by decide), h1, h3]

/-- C9 counterexample: a data set containing the title "No Game No Life"
yields a `common_words` report whose first entry is the two-letter word
"no" — the report stores the raw `most_common(50)` without the length
filter. -/
theorem common_words_counterexample :
    commonWordsReport ngnlData = some [("no", 2), ("game", 1), ("life", 1)] ∧
    ("no" : String).length = 2 :=
  ⟨commonWordsReport_ngnl, by decide⟩

/-- C9 witness: the common-words theorem applied at the concrete data set. -/
theorem common_words_amended_witness :
    "no" ∈ (collectTitles ngnlData).flatMap tokenizeTitle :=
  common_words_amended.1 ngnlData [("no", 2), ("game", 1), ("life", 1)] "no" 2
    commonWordsReport_ngnl (by decide)
